import Mathlib

/-!
Verification of the post-processing tools in `verified-scheduling`
(`stringify/lib/wrap.py` and `stringify/lib/replace_calloc.py`).

The Python sources are shallowly embedded: strings are `List Char`,
every `re.sub` call becomes an explicit left-to-right, non-overlapping
scanner faithful to the Python `re` semantics of the concrete pattern it
embeds (leftmost match, greedy subpatterns, ordered alternation), and
Python's `eval` on the arithmetic fragment is embedded as a recursive
descent evaluator over the Python expression grammar restricted to
integer literals, `+ - * / // % **`, unary signs, parentheses and
whitespace; Python floats are modelled as exact rationals, which agrees
with CPython wherever the values are exactly representable (all inputs
used in the theorems below are).
-/

/-- The whitespace class used by Python's `str.strip()` and by `\s` in the
ASCII-relevant fragment of `re`: space, tab, newline, carriage return,
vertical tab, form feed. -/
def isPySpace (c : Char) : Bool :=
  c = ' ' || c = '\t' || c = '\n' || c = '\r' || c = Char.ofNat 11 || c = Char.ofNat 12

/-- The `\w` class of `re` restricted to ASCII (the only characters the
sources feed it): letters, digits and underscore. -/
def isWordChar (c : Char) : Bool :=
  (('a' ≤ c && c ≤ 'z') || ('A' ≤ c && c ≤ 'Z') || ('0' ≤ c && c ≤ '9') || c = '_')

/-- ASCII decimal digit, the `\d` class. -/
def isDigitChar (c : Char) : Bool :=
  '0' ≤ c && c ≤ '9'

/-- Opening brace character (spelled via its code point). -/
def obr : Char := Char.ofNat 123

/-- Closing brace character (spelled via its code point). -/
def cbr : Char := Char.ofNat 125

/-- Python's `str.strip()`: drop leading and trailing whitespace. -/
def pyStrip (s : List Char) : List Char :=
  List.rdropWhile isPySpace (List.dropWhile isPySpace s)

/-- The decimal digit character for a value below ten. -/
def digitCh (n : Nat) : Char := Char.ofNat (48 + n)

/-- Decimal digits of a natural number (most significant first); `fuel`
dominates the number of digits, every caller passes `n + 1`. -/
def natDigits : Nat → Nat → List Char
  | 0, _ => []
  | fuel + 1, n => if n < 10 then [digitCh n] else natDigits fuel (n / 10) ++ [digitCh (n % 10)]

/-- Decimal notation of a natural number, as Python `str` prints it. -/
def natToChars (n : Nat) : List Char := natDigits (n + 1) n

/-- Decimal notation of an integer, as Python `str` prints it. -/
def intToChars (i : Int) : List Char :=
  if i < 0 then '-' :: natToChars i.natAbs else natToChars i.natAbs

/-- Match a literal character sequence at the head of the input, returning
the remainder (the `re` semantics of a literal pattern fragment). -/
def dropLit : List Char → List Char → Option (List Char)
  | [], s => some s
  | _ :: _, [] => none
  | p :: ps, c :: t => if c = p then dropLit ps t else none

/-- Generic embedding of `re.sub` for a pattern with a computable matcher:
`f s` returns `some (replacement, remainder)` when the pattern matches at
the head of `s` (consuming at least one character), `none` otherwise.
The scanner walks left to right, replaces each leftmost non-overlapping
match, and resumes after the match, exactly as `re.sub` does.  `fuel`
bounds the recursion; every caller passes at least the input length,
which by the one-character-minimum progress is always sufficient. -/
def subScan (f : List Char → Option (List Char × List Char)) : Nat → List Char → List Char
  | 0, s => s
  | _ + 1, [] => []
  | fuel + 1, c :: t =>
    match f (c :: t) with
    | some (repl, r) => repl ++ subScan f fuel r
    | none => c :: subScan f fuel t

/-- Tail matcher used by the `(X - (0))` and `(X + (0))` rules of
`simplify_expression`: after the captured group, the pattern requires
`\s* op \s* (0) )`.  Returns the remainder after the final `)`. -/
def p12Tail (op : Char) (t : List Char) : Option (List Char) :=
  match t.dropWhile isPySpace with
  | c :: t2 =>
    if c = op then
      match dropLit "(0))".data (t2.dropWhile isPySpace) with
      | some r => some r
      | none => none
    else none
  | [] => none

/-- Backtracking search for the group `[^)]+` of the `(X op (0))` rules:
the regex engine tries the longest prefix of the maximal `[^)]*` run
first and shrinks it until the tail pattern matches (greedy matching). -/
def p12Find (op : Char) (R : List Char) (rest : List Char) : Nat → Option (List Char × List Char)
  | 0 => none
  | k + 1 =>
    match p12Tail op (R.drop (k + 1) ++ rest) with
    | some r => some (R.take (k + 1), r)
    | none => p12Find op R rest k

/-- Matcher for `\(([^)]+)\s*-\s*\(0\)\)` (respectively with `+`): on
success, returns the captured group (the replacement) and the remainder
after the whole match. -/
def p12MatchAt (op : Char) (s : List Char) : Option (List Char × List Char) :=
  match s with
  | [] => none
  | c :: t =>
    if c = '(' then
      let R := t.takeWhile (fun d => d ≠ ')')
      p12Find op R (t.drop R.length) R.length
    else none

/-- Matcher for the literal rule `\(0\)` → `0`. -/
def p3MatchAt (s : List Char) : Option (List Char × List Char) :=
  match dropLit "(0)".data s with
  | some r => some ("0".data, r)
  | none => none

/-- Matcher for `\((\w+)\)\s*\*\s*\((\w+)\)` → `\1 * \2`. -/
def p4MatchAt (s : List Char) : Option (List Char × List Char) :=
  match s with
  | [] => none
  | c :: t =>
    if c = '(' then
      let A := t.takeWhile isWordChar
      if A.isEmpty then none else
      match t.drop A.length with
      | ')' :: u =>
        match (u.dropWhile isPySpace) with
        | '*' :: u2 =>
          match (u2.dropWhile isPySpace) with
          | '(' :: v =>
            let B := v.takeWhile isWordChar
            if B.isEmpty then none else
            match v.drop B.length with
            | ')' :: w => some (A ++ " * ".data ++ B, w)
            | _ => none
          | _ => none
        | _ => none
      | _ => none
    else none

/-- First `re.sub` pass of `simplify_expression`: `(X - (0))` → `X`. -/
def sub_p1 (s : List Char) : List Char := subScan (p12MatchAt '-') s.length s

/-- Second pass: `(X + (0))` → `X`. -/
def sub_p2 (s : List Char) : List Char := subScan (p12MatchAt '+') s.length s

/-- Third pass: `(0)` → `0`. -/
def sub_p3 (s : List Char) : List Char := subScan p3MatchAt s.length s

/-- Fourth pass: `(A) * (B)` → `A * B` for identifier groups. -/
def sub_p4 (s : List Char) : List Char := subScan p4MatchAt s.length s

/-- Embeds `simplify_expression` of `replace_calloc.py`: four `re.sub`
passes followed by `strip()`. -/
def simplify_expression (s : List Char) : List Char :=
  pyStrip (sub_p4 (sub_p3 (sub_p2 (sub_p1 s))))

/-- `simplify_expression` on `String`s. -/
def simplifyExpr (s : String) : String :=
  String.mk (simplify_expression s.data)

/-- An exact rational, kept unnormalized (numerator and positive
denominator), used to model Python floats.  Exact rational arithmetic
coincides with CPython float semantics whenever the values involved are
exactly representable as doubles, which is true of every concrete input
appearing in this file. -/
structure PyFloat where
  num : Int
  den : Nat
deriving DecidableEq

/-- Sum of two modelled floats. -/
def PyFloat.add (a b : PyFloat) : PyFloat :=
  ⟨a.num * b.den + b.num * a.den, a.den * b.den⟩

/-- Difference of two modelled floats. -/
def PyFloat.sub (a b : PyFloat) : PyFloat :=
  ⟨a.num * b.den - b.num * a.den, a.den * b.den⟩

/-- Product of two modelled floats. -/
def PyFloat.mul (a b : PyFloat) : PyFloat :=
  ⟨a.num * b.num, a.den * b.den⟩

/-- Negation of a modelled float. -/
def PyFloat.neg (a : PyFloat) : PyFloat :=
  ⟨-a.num, a.den⟩

/-- Quotient of two modelled floats (the caller checks for a zero
divisor): `(a.num / a.den) / (b.num / b.den)`, with the sign moved into
the numerator so the denominator stays a natural number. -/
def PyFloat.div (a b : PyFloat) : PyFloat :=
  ⟨a.num * (b.den : Int) * (if b.num < 0 then -1 else 1), a.den * b.num.natAbs⟩

/-- Floor of a modelled float (`Int.fdiv` is the floored quotient). -/
def PyFloat.floor (a : PyFloat) : Int :=
  Int.fdiv a.num (a.den : Int)

/-- Power of a modelled float by a natural exponent. -/
def PyFloat.pow (a : PyFloat) (n : Nat) : PyFloat :=
  ⟨a.num ^ n, a.den ^ n⟩

/-- A Python numeric value as produced by `eval` on arithmetic input:
an `int` (arbitrary precision) or a `float` (modelled exactly). -/
inductive PyVal where
  | pint (i : Int)
  | pfloat (q : PyFloat)
deriving DecidableEq

/-- Numeric coercion used when an operation mixes ints and floats. -/
def PyVal.toF : PyVal → PyFloat
  | .pint i => ⟨i, 1⟩
  | .pfloat q => q

/-- Python `+` on numbers: int when both operands are ints, float otherwise. -/
def pyAdd : PyVal → PyVal → PyVal
  | .pint a, .pint b => .pint (a + b)
  | a, b => .pfloat (PyFloat.add a.toF b.toF)

/-- Python binary `-` on numbers. -/
def pySub : PyVal → PyVal → PyVal
  | .pint a, .pint b => .pint (a - b)
  | a, b => .pfloat (PyFloat.sub a.toF b.toF)

/-- Python `*` on numbers. -/
def pyMul : PyVal → PyVal → PyVal
  | .pint a, .pint b => .pint (a * b)
  | a, b => .pfloat (PyFloat.mul a.toF b.toF)

/-- Python unary `-`. -/
def pyNeg : PyVal → PyVal
  | .pint i => .pint (-i)
  | .pfloat q => .pfloat q.neg

/-- Python `/`: true division, always a float; `ZeroDivisionError` is `none`. -/
def pyDiv (a b : PyVal) : Option PyVal :=
  if b.toF.num = 0 then none else some (.pfloat (PyFloat.div a.toF b.toF))

/-- Python `//`: floor division (`Int.fdiv` is Python's floored quotient);
on floats the result is the floor as a float. -/
def pyFloorDiv : PyVal → PyVal → Option PyVal
  | .pint a, .pint b => if b = 0 then none else some (.pint (Int.fdiv a b))
  | a, b =>
    if b.toF.num = 0 then none
    else some (.pfloat ⟨(PyFloat.div a.toF b.toF).floor, 1⟩)

/-- Python `%`: floored remainder (`Int.fmod` has the sign of the divisor,
as in Python); on floats, `a - b * floor(a / b)`. -/
def pyMod : PyVal → PyVal → Option PyVal
  | .pint a, .pint b => if b = 0 then none else some (.pint (Int.fmod a b))
  | a, b =>
    if b.toF.num = 0 then none
    else some (.pfloat (PyFloat.sub a.toF
      (PyFloat.mul b.toF ⟨(PyFloat.div a.toF b.toF).floor, 1⟩)))

/-- Python `**`: int result for int base and non-negative int exponent,
float otherwise; `0` to a negative power is `ZeroDivisionError`.  A float
exponent is supported only when it is integral (the sole way the sources
could produce one); a genuinely fractional exponent is modelled as
failure since its value is irrational. -/
def pyPow : PyVal → PyVal → Option PyVal
  | .pint a, .pint b =>
    if 0 ≤ b then some (.pint (a ^ b.toNat))
    else if a = 0 then none
    else some (.pfloat (PyFloat.div ⟨1, 1⟩ (PyFloat.pow ⟨a, 1⟩ (-b).toNat)))
  | a, .pint b =>
    if 0 ≤ b then some (.pfloat (PyFloat.pow a.toF b.toNat))
    else if a.toF.num = 0 then none
    else some (.pfloat (PyFloat.div ⟨1, 1⟩ (PyFloat.pow a.toF (-b).toNat)))
  | a, .pfloat e =>
    if Int.fmod e.num (e.den : Int) = 0 then
      let b := Int.fdiv e.num (e.den : Int)
      if 0 ≤ b then some (.pfloat (PyFloat.pow a.toF b.toNat))
      else if a.toF.num = 0 then none
      else some (.pfloat (PyFloat.div ⟨1, 1⟩ (PyFloat.pow a.toF (-b).toNat)))
    else none

/-- Decimal value of a digit string. -/
def digitsToNat (ds : List Char) : Nat :=
  ds.foldl (fun a c => 10 * a + (c.toNat - 48)) 0

/-- Skip whitespace (the tokenizer's inter-token skipping). -/
def skipWs (s : List Char) : List Char := s.dropWhile isPySpace

/-- Parse a Python decimal integer literal: a non-empty digit run; a
leading zero is a syntax error unless every digit is `0`. -/
def parseNumber (s : List Char) : Option (PyVal × List Char) :=
  if (s.takeWhile isDigitChar).isEmpty then none
  else if (s.takeWhile isDigitChar).head? == some '0' &&
      !(s.takeWhile isDigitChar).all (fun c => c = '0') then none
  else some (.pint (digitsToNat (s.takeWhile isDigitChar)), s.drop (s.takeWhile isDigitChar).length)

mutual

/-- Unary level of the Python expression grammar: `-u`, `+u`, or a power. -/
def parseF : Nat → List Char → Option (PyVal × List Char)
  | 0, _ => none
  | fuel + 1, s =>
    match skipWs s with
    | c :: t =>
      if c = '-' then
        match parseF fuel t with
        | some (v, r) => some (pyNeg v, r)
        | none => none
      else if c = '+' then parseF fuel t
      else parseAtomPow fuel (c :: t)
    | [] => parseAtomPow fuel []

/-- Atom (integer literal or parenthesized expression) followed by an
optional right-associative `** u` tail. -/
def parseAtomPow : Nat → List Char → Option (PyVal × List Char)
  | 0, _ => none
  | fuel + 1, s =>
    match s with
    | c :: t =>
      if c = '(' then
        match parseE fuel t with
        | some (v, r) =>
          match skipWs r with
          | c2 :: r2 => if c2 = ')' then parsePowTail fuel v r2 else none
          | [] => none
        | none => none
      else
        match parseNumber (c :: t) with
        | some (v, r) => parsePowTail fuel v r
        | none => none
    | [] => none

/-- The `** u` tail: right-associative, binding into the unary level. -/
def parsePowTail : Nat → PyVal → List Char → Option (PyVal × List Char)
  | 0, _, _ => none
  | fuel + 1, v, r =>
    match skipWs r with
    | c :: t =>
      if c = '*' then
        match t with
        | c2 :: r2 =>
          if c2 = '*' then
            match parseF fuel r2 with
            | some (w, r3) =>
              match pyPow v w with
              | some x => some (x, r3)
              | none => none
            | none => none
          else some (v, r)
        | [] => some (v, r)
      else some (v, r)
    | [] => some (v, r)

/-- Multiplicative level: left-associative `* / // %` chains. -/
def parseT : Nat → List Char → Option (PyVal × List Char)
  | 0, _ => none
  | fuel + 1, s =>
    match parseF fuel s with
    | some (v, r) => loopT fuel v r
    | none => none

/-- The multiplicative-chain loop.  A `**` at this level belongs to a
factor and is never consumed here (it ends the chain, exactly as the
grammar dictates; a stray `**` then fails in the factor parser as it
does in Python). -/
def loopT : Nat → PyVal → List Char → Option (PyVal × List Char)
  | 0, _, _ => none
  | fuel + 1, v, r =>
    match skipWs r with
    | c :: t =>
      if c = '*' then
        match t with
        | c2 :: _ =>
          if c2 = '*' then some (v, r)
          else
            match parseF fuel t with
            | some (w, r3) => loopT fuel (pyMul v w) r3
            | none => none
        | [] =>
          match parseF fuel t with
          | some (w, r3) => loopT fuel (pyMul v w) r3
          | none => none
      else if c = '/' then
        match t with
        | c2 :: t2 =>
          if c2 = '/' then
            match parseF fuel t2 with
            | some (w, r3) =>
              match pyFloorDiv v w with
              | some x => loopT fuel x r3
              | none => none
            | none => none
          else
            match parseF fuel t with
            | some (w, r3) =>
              match pyDiv v w with
              | some x => loopT fuel x r3
              | none => none
            | none => none
        | [] =>
          match parseF fuel t with
          | some (w, r3) =>
            match pyDiv v w with
            | some x => loopT fuel x r3
            | none => none
          | none => none
      else if c = '%' then
        match parseF fuel t with
        | some (w, r3) =>
          match pyMod v w with
          | some x => loopT fuel x r3
          | none => none
        | none => none
      else some (v, r)
    | [] => some (v, r)

/-- Additive level: left-associative `+ -` chains. -/
def parseE : Nat → List Char → Option (PyVal × List Char)
  | 0, _ => none
  | fuel + 1, s =>
    match parseT fuel s with
    | some (v, r) => loopE fuel v r
    | none => none

/-- The additive-chain loop. -/
def loopE : Nat → PyVal → List Char → Option (PyVal × List Char)
  | 0, _, _ => none
  | fuel + 1, v, r =>
    match skipWs r with
    | c :: t =>
      if c = '+' then
        match parseT fuel t with
        | some (w, r3) => loopE fuel (pyAdd v w) r3
        | none => none
      else if c = '-' then
        match parseT fuel t with
        | some (w, r3) => loopE fuel (pySub v w) r3
        | none => none
      else some (v, r)
    | [] => some (v, r)

end

/-- Embedding of Python `eval(expr, {"__builtins__": {}}, {})` on the
arithmetic fragment: parse a full expression; anything else (names,
other syntax) raises and is modelled as `none`. -/
def pyEvalTop (s : List Char) : Option PyVal :=
  match parseE (4 * s.length + 8) s with
  | some (v, r) => if (skipWs r).isEmpty then some v else none
  | none => none

/-- Python `repr`/`str` of a float, for floats with a finite decimal
expansion (the only ones reaching `str` in this development): sign,
integer part, then the fractional digits with trailing zeros removed but
at least one digit kept. -/
def floatRepr (q : PyFloat) : List Char :=
  let sign : List Char := if q.num < 0 then ['-'] else []
  let n := q.num.natAbs
  let d := q.den
  match (List.range 18).find? (fun k => n * 10 ^ k % d = 0) with
  | some k =>
    let scaled := n * 10 ^ k / d
    let ip := scaled / 10 ^ k
    let fp := scaled % 10 ^ k
    let fpDigits := natToChars fp
    let padded := List.replicate (k - fpDigits.length) '0' ++ fpDigits
    let trimmed := List.rdropWhile (fun c => c = '0') padded
    let frac := if trimmed.isEmpty then ['0'] else trimmed
    sign ++ natToChars ip ++ '.' :: frac
  | none => sign ++ natToChars n ++ '/' :: natToChars d

/-- Python `str` of a numeric value. -/
def pyValStr : PyVal → List Char
  | .pint i => intToChars i
  | .pfloat q => floatRepr q

/-- Matcher for the array-size pattern `\[([^\]]+)\]` of `fold_code`,
with the replacement function `fold_array_size`: evaluate the bracket
content; on success replace it by the `str` of the value, on failure
keep the whole match (`match.group(0)`). -/
def bracketMatchAt (s : List Char) : Option (List Char × List Char) :=
  match s with
  | [] => none
  | c :: t =>
    if c = '[' then
      let content := t.takeWhile (fun d => d ≠ ']')
      if content.isEmpty then none
      else
        match t.drop content.length with
        | ']' :: r =>
          match pyEvalTop content with
          | some v => some ('[' :: pyValStr v ++ [']'], r)
          | none => some ('[' :: content ++ [']'], r)
        | _ => none
    else none

/-- Second operand of the comparison-folding pattern: `(?:\d+|\))`. -/
def cmpOperand2 (s : List Char) : Option (List Char × List Char) :=
  match s with
  | ')' :: t => some ([')'], t)
  | _ =>
    let ds := s.takeWhile isDigitChar
    if ds.isEmpty then none else some (ds, s.drop ds.length)

/-- After the comparison prefix: the group
`((?:\d+|\()\s*[+\-*/]\s*(?:\d+|\)))`, returned as (group text, rest). -/
def cmpTail (s : List Char) : Option (List Char × List Char) :=
  match (match s with
         | '(' :: t => some ((['('] : List Char), t)
         | _ =>
           let ds := s.takeWhile isDigitChar
           if ds.isEmpty then none else some (ds, s.drop ds.length)) with
  | none => none
  | some (o1, r1) =>
    let w1 := r1.takeWhile isPySpace
    match r1.drop w1.length with
    | op :: r2 =>
      if op = '+' || op = '-' || op = '*' || op = '/' then
        let w2 := r2.takeWhile isPySpace
        match cmpOperand2 (r2.drop w2.length) with
        | some (o2, r3) => some (o1 ++ w1 ++ op :: (w2 ++ o2), r3)
        | none => none
      else none
    | [] => none

/-- Matcher for the comparison-folding pattern
`(<\s*|<=\s*|>\s*|>=\s*)((?:\d+|\()\s*[+\-*/]\s*(?:\d+|\)))` with the
replacement function `fold_in_comparison`: the prefix (comparison
operator and its trailing whitespace) is kept; the operand group is
evaluated and replaced by its `str` on success, kept verbatim on
failure.  Alternation is ordered: the single-character operator is tried
before the two-character one, as in Python `re`. -/
def cmpMatchAt (s : List Char) : Option (List Char × List Char) :=
  match s with
  | [] => none
  | c :: t =>
    if c = '<' || c = '>' then
      let tryAfter : List Char → List Char → Option (List Char × List Char) :=
        fun pfx rest =>
          let w := rest.takeWhile isPySpace
          match cmpTail (rest.drop w.length) with
          | some (expr, r) =>
            match pyEvalTop expr with
            | some v => some ((c :: pfx) ++ w ++ pyValStr v, r)
            | none => some ((c :: pfx) ++ w ++ expr, r)
          | none => none
      match tryAfter [] t with
      | some res => some res
      | none =>
        match t with
        | '=' :: t2 => tryAfter ['='] t2
        | _ => none
    else none

/-- One whole-word substitution `re.sub(r'\b' + param + r'\b', val, s)`,
scanning with the previous original character tracked for the left
word-boundary test. -/
def substWordGo (p v : List Char) : Nat → Option Char → List Char → List Char
  | 0, _, s => s
  | _ + 1, _, [] => []
  | fuel + 1, prev, c :: t =>
    let boundaryBefore := match prev with
      | none => true
      | some pc => !isWordChar pc
    if boundaryBefore then
      match dropLit p (c :: t) with
      | some r =>
        let boundaryAfter := match r with
          | [] => true
          | d :: _ => !isWordChar d
        if boundaryAfter then v ++ substWordGo p v fuel p.getLast? r
        else c :: substWordGo p v fuel (some c) t
      | none => c :: substWordGo p v fuel (some c) t
    else c :: substWordGo p v fuel (some c) t

/-- Whole-word substitution of a parameter name by its value. -/
def substWord (p v s : List Char) : List Char := substWordGo p v s.length none s

/-- The parameter-substitution loop shared by `fold_expression` and
`fold_code`: `for param, value in self.param_values.items(): ...`. -/
def substAll (bindings : List (List Char × Int)) (s : List Char) : List Char :=
  bindings.foldl (fun acc pv => substWord pv.1 (intToChars pv.2) acc) s

/-- The bracket-folding pass of `fold_code`. -/
def subBrackets (s : List Char) : List Char := subScan bracketMatchAt s.length s

/-- One comparison-folding pass of `fold_code`. -/
def subCmp (s : List Char) : List Char := subScan cmpMatchAt s.length s

/-- The bounded fixpoint loop over comparison-folding passes:
`for _ in range(3): prev = result; result = sub(...); if result == prev: break`. -/
def cmpPassLoop : Nat → List Char → List Char
  | 0, s => s
  | n + 1, s =>
    let r := subCmp s
    if r = s then s else cmpPassLoop n r

/-- Embeds `ConstantFolder.fold_code` of `wrap.py`: substitute every
bound parameter as a whole word, fold array-size brackets, then run the
comparison-folding pass once plus up to three more times with an early
exit on a fixpoint. -/
def fold_code (bindings : List (List Char × Int)) (code : List Char) : List Char :=
  cmpPassLoop 3 (subCmp (subBrackets (substAll bindings code)))

/-- Embeds `ConstantFolder.fold_expression` of `wrap.py`: substitute the
bindings, strip, evaluate; on failure return the stripped substituted
text (the `result` variable rebound before `eval` is attempted). -/
def fold_expression (bindings : List (List Char × Int)) (expr : List Char) : List Char :=
  let stripped := pyStrip (substAll bindings expr)
  match pyEvalTop stripped with
  | some v => pyValStr v
  | none => stripped

/-- `fold_code` on `String`s. -/
def foldCodeStr (bindings : List (String × Int)) (code : String) : String :=
  String.mk (fold_code (bindings.map (fun pv => (pv.1.data, pv.2))) code.data)

/-!
Specification-side abstract syntax of fully literal arithmetic over
`+ - *`, parentheses and non-negative decimal literals, in the chain
shape of the grammar (head operand followed by the operator chain), so
that left associativity — standard precedence — is explicit.
-/

mutual

inductive FactorA where
  | lit (ds : List Char)
  | paren (e : ExprA)

inductive FactorL where
  | nil
  | cons (f : FactorA) (rest : FactorL)

inductive TermA where
  | mk (f : FactorA) (rest : FactorL)

inductive TermL where
  | nil
  | cons (plus : Bool) (t : TermA) (rest : TermL)

inductive ExprA where
  | mk (t : TermA) (rest : TermL)

end

mutual

/-- Rendering of a factor in standard notation. -/
def rF : FactorA → List Char
  | .lit ds => ds
  | .paren e => '(' :: rE e ++ [')']

/-- Rendering of a `* factor` chain. -/
def rFL : FactorL → List Char
  | .nil => []
  | .cons f rest => ' ' :: '*' :: ' ' :: (rF f ++ rFL rest)

/-- Rendering of a term. -/
def rT : TermA → List Char
  | .mk f rest => rF f ++ rFL rest

/-- Rendering of a `+ term` / `- term` chain. -/
def rTL : TermL → List Char
  | .nil => []
  | .cons plus t rest => ' ' :: (if plus then '+' else '-') :: ' ' :: (rT t ++ rTL rest)

/-- Rendering of an expression. -/
def rE : ExprA → List Char
  | .mk t rest => rT t ++ rTL rest

end

mutual

/-- Value of a factor (standard semantics). -/
def vF : FactorA → Int
  | .lit ds => (digitsToNat ds : Int)
  | .paren e => vE e

/-- Left-associative evaluation of a `*` chain. -/
def vFL : Int → FactorL → Int
  | a, .nil => a
  | a, .cons f rest => vFL (a * vF f) rest

/-- Value of a term. -/
def vT : TermA → Int
  | .mk f rest => vFL (vF f) rest

/-- Left-associative evaluation of a `+ -` chain. -/
def vTL : Int → TermL → Int
  | a, .nil => a
  | a, .cons plus t rest => vTL (if plus then a + vT t else a - vT t) rest

/-- Value of an expression. -/
def vE : ExprA → Int
  | .mk t rest => vTL (vT t) rest

end

mutual

/-- Well-formedness of a factor: literals are non-empty digit runs with
no leading zero (unless all digits are zero, which Python also accepts). -/
def validF : FactorA → Bool
  | .lit ds =>
    !ds.isEmpty && ds.all isDigitChar &&
      (!(ds.head? == some '0') || ds.all (fun c => c = '0'))
  | .paren e => validE e

/-- Well-formedness of a factor chain. -/
def validFL : FactorL → Bool
  | .nil => true
  | .cons f rest => validF f && validFL rest

/-- Well-formedness of a term. -/
def validT : TermA → Bool
  | .mk f rest => validF f && validFL rest

/-- Well-formedness of a term chain. -/
def validTL : TermL → Bool
  | .nil => true
  | .cons _ t rest => validT t && validTL rest

/-- Well-formedness of an expression. -/
def validE : ExprA → Bool
  | .mk t rest => validT t && validTL rest

end

/-- The characters renderings are built from. -/
def renderCharOK (c : Char) : Bool :=
  isDigitChar c || c = '(' || c = ')' || c = '*' || c = '+' || c = '-' || c = ' '

/-- The continuation does not begin with a digit (so a rendered literal
just before it is tokenized whole). -/
def headNotDigit (s : List Char) : Prop :=
  ∀ c t, s = c :: t → isDigitChar c = false

/-- After whitespace skipping the continuation does not begin with any of
the given operator characters. -/
def afterWsHeadNotIn (ops : List Char) (s : List Char) : Prop :=
  ∀ c t, skipWs s = c :: t → c ∉ ops

/-- The continuation does not begin (after whitespace) with `**`. -/
def noPowStart (s : List Char) : Prop :=
  ∀ t, skipWs s ≠ '*' :: '*' :: t

/-- Continuation condition at factor level. -/
def FollowF (s : List Char) : Prop := headNotDigit s ∧ noPowStart s

/-- Continuation condition at term level. -/
def FollowT (s : List Char) : Prop := headNotDigit s ∧ afterWsHeadNotIn ['*', '/', '%'] s

/-- Continuation condition at expression level. -/
def FollowE (s : List Char) : Prop :=
  headNotDigit s ∧ afterWsHeadNotIn ['*', '/', '%', '+', '-'] s

/-- A concrete abstract-syntax witness for `2 + 3 * 4`. -/
def astExample : ExprA :=
  ExprA.mk (TermA.mk (.lit ['2']) .nil)
    (TermL.cons true (TermA.mk (.lit ['3']) (FactorL.cons (.lit ['4']) .nil)) .nil)

/-- A JSON value as `json.load` produces it in Python: numbers arrive as
`int` or `float`, and booleans, strings, `null`, objects and arrays are
distinct types (object contents are irrelevant to the loader, which
never looks inside one). -/
inductive JVal where
  | jint (i : Int)
  | jfloat (q : PyFloat)
  | jbool (b : Bool)
  | jstr (s : List Char)
  | jnull
  | jobj
  | jarr (xs : List JVal)

mutual

/-- Embeds `ArrayLoader._flatten` of `wrap.py`: a list flattens to the
concatenation of its elements' flattenings, anything else is a
single-element result. -/
def json_flatten : JVal → List JVal
  | .jarr xs => json_flattenList xs
  | .jint i => [.jint i]
  | .jfloat q => [.jfloat q]
  | .jbool b => [.jbool b]
  | .jstr s => [.jstr s]
  | .jnull => [.jnull]
  | .jobj => [.jobj]

/-- The `for item in data: result.extend(...)` loop of `_flatten`. -/
def json_flattenList : List JVal → List JVal
  | [] => []
  | x :: t => json_flatten x ++ json_flattenList t

end

/-- Python `isinstance(x, (int, float))`.  Note that `bool` is a subtype
of `int` in Python, so booleans pass this check. -/
def pyIsNumber : JVal → Bool
  | .jint _ => true
  | .jfloat _ => true
  | .jbool _ => true
  | _ => false

/-- Python `float(x)` on a value that passed the numeric check
(`float(True) = 1.0`, `float(False) = 0.0`). -/
def jToFloat : JVal → PyFloat
  | .jint i => ⟨i, 1⟩
  | .jfloat q => q
  | .jbool b => ⟨if b then 1 else 0, 1⟩
  | _ => ⟨0, 1⟩

/-- Embeds `ArrayLoader.load_json_array` of `wrap.py` after the file has
been parsed into a `JVal` (file IO is outside the embedding): flatten,
validate that every element is numeric (`ValueError` is `none`), then
convert every element with `float`. -/
def load_json_array (data : JVal) : Option (List PyFloat) :=
  if (json_flatten data).all pyIsNumber then some ((json_flatten data).map jToFloat)
  else none

mutual

/-- Specification-side leaf count of a nested array structure. -/
def leafCount : JVal → Nat
  | .jarr xs => leafCountList xs
  | _ => 1

/-- Leaf count of a list of values. -/
def leafCountList : List JVal → Nat
  | [] => 0
  | x :: t => leafCount x + leafCountList t

end

mutual

/-- Specification-side predicate: every leaf of the nested structure is
numeric in the Python sense (a number or a boolean). -/
def allLeavesNumeric : JVal → Bool
  | .jarr xs => allLeavesNumericList xs
  | v => pyIsNumber v

/-- The list version of `allLeavesNumeric`. -/
def allLeavesNumericList : List JVal → Bool
  | [] => true
  | x :: t => allLeavesNumeric x && allLeavesNumericList t

end

/-- A concrete nested JSON array, `[1, [2]]`. -/
def jsonExample : JVal := .jarr [.jint 1, .jarr [.jint 2]]

/-- Matcher for the opening pattern of `read_function_body`:
`void\s+NAME\s*\([^)]+\)\s*\{` (the name is interpolated literally; the
callers only ever pass `\w+` names).  On success returns the remainder
after the opening brace (`match.end()`). -/
def matchOpenAt (name : List Char) (s : List Char) : Option (List Char) :=
  match dropLit "void".data s with
  | none => none
  | some r1 =>
    match r1 with
    | c :: _ =>
      if isPySpace c then
        match dropLit name (r1.dropWhile isPySpace) with
        | none => none
        | some r3 =>
          match r3.dropWhile isPySpace with
          | '(' :: r5 =>
            if (r5.takeWhile (fun d => d ≠ ')')).isEmpty then none
            else
              match r5.drop (r5.takeWhile (fun d => d ≠ ')')).length with
              | ')' :: r6 =>
                match r6.dropWhile isPySpace with
                | c2 :: r8 => if c2 = obr then some r8 else none
                | [] => none
              | _ => none
          | _ => none
      else none
    | [] => none

/-- `re.search`: try the pattern at each position left to right. -/
def findOpen (name : List Char) : Nat → List Char → Option (List Char)
  | 0, _ => none
  | _ + 1, [] => none
  | fuel + 1, c :: t =>
    match matchOpenAt name (c :: t) with
    | some r => some r
    | none => findOpen name fuel t

/-- The balanced-brace forward scan of `read_function_body`: starting
from a count, consume characters (incrementing on `{`, decrementing on
`}`) until the count reaches zero or the input ends; the returned list
includes the character that zeroed the count when there is one. -/
def takeBalanced : Nat → Nat → List Char → List Char
  | 0, _, _ => []
  | _ + 1, _, [] => []
  | fuel + 1, k, c :: t =>
    let knew := if c = obr then k + 1 else if c = cbr then k - 1 else k
    if knew = 0 then [c] else c :: takeBalanced fuel knew t

/-- Embeds `WrapperGenerator.read_function_body` of `wrap.py` after the
`.c` file has been read (file IO is outside the embedding): locate the
opening pattern, scan to the matching brace, return the text strictly
between the braces stripped of surrounding whitespace
(`content[start:pos-1].strip()`; when the scan hits the end of the input
with unbalanced braces the final character is likewise dropped, exactly
as the slice does). -/
def read_function_body (content : List Char) (name : List Char) : Option (List Char) :=
  match findOpen name content.length content with
  | some rest => some (pyStrip (takeBalanced rest.length 1 rest).dropLast)
  | none => none

/-- Signed brace contribution of one character. -/
def charBal (c : Char) : Int :=
  if c = obr then 1 else if c = cbr then -1 else 0

/-- Net brace balance of a string. -/
def braceBal (s : List Char) : Int :=
  (s.map charBal).sum

/-- A function body is brace-balanced: the net balance is zero and no
prefix closes more braces than it opens. -/
def BraceBalanced (s : List Char) : Prop :=
  braceBal s = 0 ∧ ∀ n, 0 ≤ braceBal (s.take n)

/-- The statistics dictionary of `transform_calloc_to_vla`. -/
structure TransformStats where
  callocs_replaced : Nat
  frees_removed : Nat
  warnings : List (List Char)
  simplifications : Nat
deriving DecidableEq

/-- Stateful variant of `subScan` for the `re.sub` calls whose
replacement functions update the statistics: the matcher also returns
the statistics update of the replacement function. -/
def subScanSt (f : List Char → Option (List Char × List Char × (TransformStats → TransformStats))) :
    Nat → TransformStats → List Char → List Char × TransformStats
  | 0, st, s => (s, st)
  | _ + 1, st, [] => ([], st)
  | fuel + 1, st, c :: t =>
    match f (c :: t) with
    | some (repl, r, upd) =>
      let out := subScanSt f fuel (upd st) r
      (repl ++ out.1, out.2)
    | none =>
      let out := subScanSt f fuel st t
      (c :: out.1, out.2)

/-- The warning condition of `replace_calloc`:
`"(" in simplified and simplified.count("(") > 1`. -/
def callocWarn (simplified : List Char) : Bool :=
  ('(' ∈ simplified : Bool) && (simplified.count '(' > 1 : Bool)

/-- The warning text `f"Complex size expression for {var_name}: {simplified}"`. -/
def callocWarnMsg (var simplified : List Char) : List Char :=
  "Complex size expression for ".data ++ var ++ ": ".data ++ simplified

/-- Matcher for `float \*(\w+) = calloc\(([^,]+), sizeof\(float\)\);` with
the replacement function `replace_calloc`: replace by
`float {var}[{simplify(size)}];`, count the replacement, count a
simplification when simplify changed the size, and append a warning when
the simplified size still has more than one `(`. -/
def callocMatchAt (s : List Char) :
    Option (List Char × List Char × (TransformStats → TransformStats)) :=
  match dropLit "float *".data s with
  | none => none
  | some r1 =>
    let var := r1.takeWhile isWordChar
    if var.isEmpty then none else
    match dropLit " = calloc(".data (r1.drop var.length) with
    | none => none
    | some r2 =>
      let size := r2.takeWhile (fun c => c ≠ ',')
      if size.isEmpty then none else
      match dropLit ", sizeof(float));".data (r2.drop size.length) with
      | none => none
      | some r3 =>
        let simplified := simplify_expression size
        some ("float ".data ++ var ++ '[' :: (simplified ++ "];".data), r3,
          fun st =>
            { st with
              callocs_replaced := st.callocs_replaced + 1
              simplifications := st.simplifications + (if simplified = size then 0 else 1)
              warnings := st.warnings ++
                (if callocWarn simplified then [callocWarnMsg var simplified] else []) })

/-- Matcher for `free\((\w+)\);` with the replacement function
`replace_free`: replace by the comment `// {var} auto-freed (VLA)`. -/
def freeMatchAt (s : List Char) :
    Option (List Char × List Char × (TransformStats → TransformStats)) :=
  match dropLit "free(".data s with
  | none => none
  | some r1 =>
    let var := r1.takeWhile isWordChar
    if var.isEmpty then none else
    match dropLit ");".data (r1.drop var.length) with
    | none => none
    | some r2 =>
      some ("// ".data ++ var ++ " auto-freed (VLA)".data, r2,
        fun st => { st with frees_removed := st.frees_removed + 1 })

/-- Matcher for `float (\w+)\[([^\]]+)\];` with the replacement function
`simplify_vla`: re-simplify the size expression of every fixed-size
array declaration. -/
def vlaMatchAt (s : List Char) :
    Option (List Char × List Char × (TransformStats → TransformStats)) :=
  match dropLit "float ".data s with
  | none => none
  | some r1 =>
    let var := r1.takeWhile isWordChar
    if var.isEmpty then none else
    match r1.drop var.length with
    | '[' :: r2 =>
      let size := r2.takeWhile (fun c => c ≠ ']')
      if size.isEmpty then none else
      match dropLit "];".data (r2.drop size.length) with
      | none => none
      | some r3 =>
        let simplified := simplify_expression size
        some ("float ".data ++ var ++ '[' :: (simplified ++ "];".data), r3,
          fun st =>
            { st with
              simplifications := st.simplifications + (if simplified = size then 0 else 1) })
    | _ => none

/-- Matcher for `(\w+)\s*-\s*0(?!\w)` (respectively with `+`) of
`simplify_all_expressions`: drop an identity `- 0` / `+ 0` after an
identifier; the negative lookahead keeps `01`-style continuations
unmatched. -/
def wOp0MatchAt (op : Char) (s : List Char) : Option (List Char × List Char) :=
  let A := s.takeWhile isWordChar
  if A.isEmpty then none else
  match (s.drop A.length).dropWhile isPySpace with
  | c :: r2 =>
    if c = op then
      match r2.dropWhile isPySpace with
      | '0' :: r3 =>
        match r3 with
        | d :: _ => if isWordChar d then none else some (A, r3)
        | [] => some (A, r3)
      | _ => none
    else none
  | [] => none

/-- Matcher for `\((\w+)\)(?=\s*[+\-*/\)])` of `simplify_all_expressions`:
drop redundant parentheses around a lone identifier when an operator or
closing parenthesis follows; the lookahead is not consumed. -/
def parenIdentMatchAt (s : List Char) : Option (List Char × List Char) :=
  match s with
  | '(' :: t =>
    let A := t.takeWhile isWordChar
    if A.isEmpty then none else
    match t.drop A.length with
    | ')' :: r =>
      match r.dropWhile isPySpace with
      | c :: _ =>
        if c = '+' || c = '-' || c = '*' || c = '/' || c = ')' then some (A, r) else none
      | [] => none
    | _ => none
  | _ => none

/-- One iteration of the `simplify_all_expressions` loop: the six
`re.sub` passes in source order. -/
def simplifyAllOnce (s : List Char) : List Char :=
  let s1 := subScan (p12MatchAt '-') s.length s
  let s2 := subScan (p12MatchAt '+') s1.length s1
  let s3 := subScan (wOp0MatchAt '-') s2.length s2
  let s4 := subScan (wOp0MatchAt '+') s3.length s3
  let s5 := subScan p3MatchAt s4.length s4
  subScan parenIdentMatchAt s5.length s5

/-- The `while prev != code and iterations < 5` loop of
`simplify_all_expressions` (the first iteration always runs because
`prev` starts as `None`). -/
def simplifyAllLoop : Nat → List Char → List Char
  | 0, s => s
  | n + 1, s =>
    let r := simplifyAllOnce s
    if r = s then r else simplifyAllLoop n r

/-- Embeds `simplify_all_expressions` of `replace_calloc.py`. -/
def simplify_all_expressions (s : List Char) : List Char :=
  simplifyAllLoop 5 s

/-- Embeds `transform_calloc_to_vla` of `replace_calloc.py`: replace
calloc declarations by VLA declarations, comment out `free(name);`
calls, re-simplify every VLA size, then run the whole-file identity
simplification loop.  Returns the transformed text and the statistics. -/
def transform_calloc_to_vla (c_code : List Char) : List Char × TransformStats :=
  let p1 := subScanSt callocMatchAt c_code.length ⟨0, 0, [], 0⟩ c_code
  let p2 := subScanSt freeMatchAt p1.1.length p1.2 p1.1
  let p3 := subScanSt vlaMatchAt p2.1.length p2.2 p2.1
  (simplify_all_expressions p3.1, p3.2)

/-- Maximal parenthesis nesting depth of a string (the running-depth
maximum; the specification-side meaning of "levels of nested
parentheses"). -/
def parenDepthAux : List Char → Nat → Nat → Nat
  | [], _, m => m
  | c :: t, cur, m =>
    if c = '(' then parenDepthAux t (cur + 1) (Nat.max m (cur + 1))
    else if c = ')' then parenDepthAux t (cur - 1) m
    else parenDepthAux t cur m

/-- Maximal parenthesis nesting depth. -/
def parenDepth (s : List Char) : Nat := parenDepthAux s 0 0

/-- Identity lemma precondition: the matcher fires at no suffix. -/
def NoMatchAnywhere (f : List Char → Option (List Char × List Char)) (s : List Char) : Prop :=
  ∀ n, f (s.drop n) = none

/-- Python `t.endswith('*')` on a parameter type. -/
def endsWithStar (t : List Char) : Bool :=
  match t.getLast? with
  | some c => c = '*'
  | none => false

/-- Python `str.lower()` on the ASCII names the sources use. -/
def pyLower (s : List Char) : List Char := s.map Char.toLower

/-- Python substring containment `pat in s`. -/
def containsSub (pat s : List Char) : Bool :=
  (List.range (s.length + 1)).any (fun i => pat.isPrefixOf (s.drop i))

/-- Python `sep.join(parts)`. -/
def joinSep (sep : List Char) : List (List Char) → List Char
  | [] => []
  | [x] => x
  | x :: y :: xs => x ++ sep ++ joinSep sep (y :: xs)

/-- Zero-pad a fraction to six digits. -/
def pad6 (n : Nat) : List Char :=
  List.replicate (6 - (natToChars n).length) '0' ++ natToChars n

/-- Python `f'{v:.6f}'` on a modelled float: round the exact value to
six decimals, ties to even, and print sign, integer part and a
six-digit fraction. -/
def format6 (v : PyFloat) : List Char :=
  let scaled := v.num.natAbs * 1000000
  let q := scaled / v.den
  let r := scaled % v.den
  let q2 := if 2 * r < v.den then q
    else if v.den < 2 * r then q + 1
    else if q % 2 = 0 then q else q + 1
  (if v.num < 0 then ['-'] else []) ++
    natToChars (q2 / 1000000) ++ '.' :: pad6 (q2 % 1000000)

/-- Python `s.split('\n')` (empty pieces preserved). -/
def splitNl : List Char → List (List Char)
  | [] => [[]]
  | c :: t =>
    if c = '\n' then [] :: splitNl t
    else
      match splitNl t with
      | [] => [[c]]
      | x :: xs => (c :: x) :: xs

/-- Matcher for the VLA zero-initialisation rewrite
`(float \w+\[[^\]]+\]);` -> `\1 = {0};` of `WrapperGenerator.generate`. -/
def vlaInitMatchAt (s : List Char) : Option (List Char × List Char) :=
  match dropLit "float ".data s with
  | none => none
  | some r1 =>
    let var := r1.takeWhile isWordChar
    if var.isEmpty then none else
    match r1.drop var.length with
    | '[' :: r2 =>
      let size := r2.takeWhile (fun c => c ≠ ']')
      if size.isEmpty then none else
      match r2.drop size.length with
      | ']' :: ';' :: r3 =>
        some ("float ".data ++ var ++ '[' :: (size ++ [']']) ++
          " = ".data ++ [obr, '0', cbr, ';'], r3)
      | _ => none
    | _ => none

/-- One formatted data line per ten values, with a trailing comma while
more values follow (the `for j in range(0, len(arr_data), 10)` loop of
`WrapperGenerator.generate`); the fuel is the list length. -/
def chunkLines : Nat → List PyFloat → List (List Char)
  | 0, _ => []
  | _, [] => []
  | fuel + 1, v :: t =>
    ("        ".data ++ joinSep ", ".data (((v :: t).take 10).map format6) ++
      (if 10 < (v :: t).length then [','] else [])) :: chunkLines fuel ((v :: t).drop 10)

/-- The input-array declarations of `WrapperGenerator.generate`
(lines 259-277): one initialised `float name[len] = {...};` block per
pointer parameter whose name does not contain `output`, consuming the
supplied arrays in order. -/
def arrayDeclLines (array_args : List (List PyFloat)) :
    List (List Char × List Char) → Nat → List (List Char)
  | [], _ => []
  | (t, n) :: rest, array_idx =>
    if endsWithStar t && !containsSub "output".data (pyLower n) then
      if array_idx < array_args.length then
        ("    float ".data ++ n ++ '[' ::
            (natToChars (array_args.getD array_idx []).length ++ "] = \x7b".data)) ::
          (chunkLines (array_args.getD array_idx []).length (array_args.getD array_idx []) ++
            ("    \x7d;".data :: arrayDeclLines array_args rest (array_idx + 1)))
      else arrayDeclLines array_args rest array_idx
    else arrayDeclLines array_args rest array_idx

/-- The call-argument list of `WrapperGenerator.generate`
(lines 284-299): pointer parameters whose name contains `output`
(case-insensitively) become the literal `output`, other pointers keep
their name, and scalar parameters take the next supplied integer while
one remains. -/
def callArgsAux (int_args : List Int) : List (List Char × List Char) → Nat → List (List Char)
  | [], _ => []
  | (t, n) :: rest, int_idx =>
    if endsWithStar t then
      (if containsSub "output".data (pyLower n) then "output".data else n) ::
        callArgsAux int_args rest int_idx
    else if int_idx < int_args.length then
      intToChars (int_args.getD int_idx 0) :: callArgsAux int_args rest (int_idx + 1)
    else callArgsAux int_args rest int_idx

/-- The scalar-argument index after processing a parameter prefix (the
`int_idx` threading of `callArgsAux`). -/
def nextIdx (alen : Nat) : List (List Char × List Char) → Nat → Nat
  | [], idx => idx
  | (t, _) :: rest, idx =>
    if endsWithStar t then nextIdx alen rest idx
    else if idx < alen then nextIdx alen rest (idx + 1)
    else nextIdx alen rest idx

/-- The `param_values` binding map of the inline path of
`WrapperGenerator.generate` (lines 306-319). -/
def paramBindings (int_args : List Int) :
    List (List Char × List Char) → Nat → List (List Char × Int)
  | [], _ => []
  | (t, n) :: rest, idx =>
    if endsWithStar t then paramBindings int_args rest idx
    else if idx < int_args.length then
      (n, int_args.getD idx 0) :: paramBindings int_args rest (idx + 1)
    else paramBindings int_args rest idx

/-- The function-call fallback lines of `WrapperGenerator.generate`. -/
def callLines (fname : List Char) (params : List (List Char × List Char))
    (int_args : List Int) : List (List Char) :=
  [("    ".data ++ fname ++ "(".data ++
      joinSep ", ".data (callArgsAux int_args params 0) ++ ");".data), []]

/-- Indent the folded body, skipping blank lines (lines 331-333). -/
def indentLines (s : List Char) : List (List Char) :=
  (splitNl s).filterMap (fun line =>
    if (pyStrip line).isEmpty then none else some ("    ".data ++ line))

/-- The middle of the generated program: either the inlined
constant-folded function body (with VLA zero-initialisation) or the
plain call (lines 301-344). -/
def middleLines (fname : List Char) (params : List (List Char × List Char))
    (source : List Char) (int_args : List Int) (inline : Bool) : List (List Char) :=
  if inline then
    match read_function_body source fname with
    | some body =>
      "    // Inlined and constant-folded function body".data ::
        (indentLines
          (subScan vlaInitMatchAt
            (fold_code (paramBindings int_args params 0) body).length
            (fold_code (paramBindings int_args params 0) body)) ++ [[]])
    | none => callLines fname params int_args
  else callLines fname params int_args

/-- The output-printing epilogue of `WrapperGenerator.generate`
(lines 347-355). -/
def printTail (output_size : Int) : List (List Char) :=
  ["    // Print output".data,
   ("    for (int i = 0; i < ".data ++ intToChars output_size ++ "; i++) \x7b".data),
   "        printf(\"%f \", output[i]);".data,
   "        if ((i + 1) % 10 == 0) printf(\"\\n\");".data,
   "    \x7d".data,
   "    printf(\"\\n\");".data,
   [],
   "    return 0;".data,
   "\x7d".data]

/-- Embeds `WrapperGenerator.generate` of `wrap.py` as the list of
emitted lines. -/
def generateLines (fname : List Char) (params : List (List Char × List Char))
    (source : List Char) (int_args : List Int) (array_args : List (List PyFloat))
    (output_size : Int) (inline : Bool) : List (List Char) :=
  (if inline then ["#include <stdlib.h>".data]
   else [("#include \"".data ++ fname ++ ".h\"".data)]) ++
  ("#include <stdio.h>".data :: ([] : List Char) :: "int main() \x7b".data ::
    (arrayDeclLines array_args params 0 ++
      (("    float output[".data ++ intToChars output_size ++ "] = \x7b0\x7d;".data) ::
        ([] : List Char) ::
        (middleLines fname params source int_args inline ++ printTail output_size))))

/-- `WrapperGenerator.generate`: the joined program text. -/
def generate (fname : List Char) (params : List (List Char × List Char))
    (source : List Char) (int_args : List Int) (array_args : List (List PyFloat))
    (output_size : Int) (inline : Bool) : List Char :=
  joinSep ['\n'] (generateLines fname params source int_args array_args output_size inline)

/-- Embeds the tail of `main` of `wrap.py` (lines 439-464), after the
function is found and the arguments are parsed: the type checks at
lines 445-451 run before the wrapper is generated and written; the
result is the process exit code together with the written file content
(`none` when nothing is written). -/
def mainModel (fname : List Char) (params : List (List Char × List Char))
    (source : List Char) (int_args : List Int) (array_args : List (List PyFloat))
    (output_size : Int) (inline : Bool) : Nat × Option (List Char) :=
  if int_args.length ≠ (params.filter (fun p => !endsWithStar p.1)).length then
    (1, none)
  else if array_args.length ≠
      (params.filter (fun p => endsWithStar p.1 &&
        !containsSub "output".data (pyLower p.2))).length then
    (1, none)
  else
    (0, some (generate fname params source int_args array_args output_size inline))

theorem subScan_id {f : List Char → Option (List Char × List Char)} {s : List Char}
    (h : NoMatchAnywhere f s) : ∀ fuel, subScan f fuel s = s := by
  intro fuel
  induction fuel generalizing s with
  | zero => rfl
  | succ n ih =>
    cases s with
    | nil => rfl
    | cons c t =>
      have h0 := h 0
      simp only [List.drop] at h0
      have ht : NoMatchAnywhere f t := fun n => h (n + 1)
      simp [subScan, h0, ih ht]

theorem p12MatchAt_none_of_head {op c : Char} {t : List Char} (h : ¬c = '(') :
    p12MatchAt op (c :: t) = none := by
  simp [p12MatchAt, h]

theorem p3MatchAt_none_of_head {c : Char} {t : List Char} (h : ¬c = '(') :
    p3MatchAt (c :: t) = none := by
  simp only [p3MatchAt]
  have : dropLit "(0)".data (c :: t) = none := by
    show dropLit ('(' :: "0)".data) (c :: t) = none
    simp [dropLit, h]
  rw [this]

theorem p4MatchAt_none_of_head {c : Char} {t : List Char} (h : ¬c = '(') :
    p4MatchAt (c :: t) = none := by
  simp [p4MatchAt, h]

/-- A parenthesis-free string admits no match of any of the four
simplification rules at any position. -/
theorem noMatch_of_no_paren {s : List Char} (h : '(' ∉ s)
    (f : List Char → Option (List Char × List Char))
    (hf : ∀ c t, ¬c = '(' → f (c :: t) = none) (hnil : f [] = none) :
    NoMatchAnywhere f s := by
  intro n
  cases hd : s.drop n with
  | nil => exact hnil
  | cons c t =>
    have hc : c ∈ s := by
      have : c ∈ s.drop n := by rw [hd]; exact List.mem_cons_self c t
      exact List.mem_of_mem_drop this
    exact hf c t (fun he => h (he ▸ hc))

theorem dropWhile_of_prefix_of_dropWhile {p : Char → Bool} {x y : List Char}
    (hx : List.dropWhile p x = x) (hpre : y <+: x) : List.dropWhile p y = y := by
  cases y with
  | nil => rfl
  | cons a ys =>
    obtain ⟨t, ht⟩ := hpre
    subst ht
    have ha : ¬p a := by
      by_contra hpa
      rw [List.cons_append, List.dropWhile_cons, if_pos hpa] at hx
      have hlen := congrArg List.length hx
      have hle : (List.dropWhile p (ys ++ t)).length ≤ (ys ++ t).length :=
        (List.dropWhile_suffix p).sublist.length_le
      simp only [List.length_cons] at hlen
      omega
    simp [List.dropWhile_cons, ha]

theorem pyStrip_idem (s : List Char) : pyStrip (pyStrip s) = pyStrip s := by
  unfold pyStrip
  have h1 : List.dropWhile isPySpace (List.dropWhile isPySpace s) =
      List.dropWhile isPySpace s := List.dropWhile_idempotent _ _
  have hpre : List.rdropWhile isPySpace (List.dropWhile isPySpace s) <+:
      List.dropWhile isPySpace s := List.rdropWhile_prefix _ _
  have h2 : List.dropWhile isPySpace
      (List.rdropWhile isPySpace (List.dropWhile isPySpace s)) =
      List.rdropWhile isPySpace (List.dropWhile isPySpace s) :=
    dropWhile_of_prefix_of_dropWhile h1 hpre
  rw [h2, List.rdropWhile_idempotent]

theorem no_paren_pyStrip {s : List Char} (h : '(' ∉ s) : '(' ∉ pyStrip s := by
  intro hc
  apply h
  have h1 : pyStrip s <+: List.dropWhile isPySpace s := List.rdropWhile_prefix _ _
  have h2 : List.dropWhile isPySpace s <:+ s := List.dropWhile_suffix _
  exact h2.sublist.subset (h1.sublist.subset hc)

theorem sub_p1_no_paren {s : List Char} (h : '(' ∉ s) : sub_p1 s = s :=
  subScan_id (noMatch_of_no_paren h _ (fun _ _ hc => p12MatchAt_none_of_head hc) rfl) _

theorem sub_p2_no_paren {s : List Char} (h : '(' ∉ s) : sub_p2 s = s :=
  subScan_id (noMatch_of_no_paren h _ (fun _ _ hc => p12MatchAt_none_of_head hc) rfl) _

theorem sub_p3_no_paren {s : List Char} (h : '(' ∉ s) : sub_p3 s = s :=
  subScan_id (noMatch_of_no_paren h _ (fun _ _ hc => p3MatchAt_none_of_head hc) rfl) _

theorem sub_p4_no_paren {s : List Char} (h : '(' ∉ s) : sub_p4 s = s :=
  subScan_id (noMatch_of_no_paren h _ (fun _ _ hc => p4MatchAt_none_of_head hc) rfl) _

/-- `simplify_expression` leaves a parenthesis-free string untouched except
for stripping surrounding whitespace. -/
theorem simplify_expression_no_paren {s : List Char} (h : '(' ∉ s) :
    simplify_expression s = pyStrip s := by
  unfold simplify_expression
  rw [sub_p1_no_paren h, sub_p2_no_paren h, sub_p3_no_paren h, sub_p4_no_paren h]

/-- C2 counterexample: `simplify_expression` is not idempotent.  On
`((0))` one application yields `(0)` and a second application yields `0`. -/
theorem simplify_expression_not_idempotent :
    simplifyExpr (simplifyExpr "((0))") ≠ simplifyExpr "((0))" := by
  decide

/-- C2 (amended): on parenthesis-free expressions `simplify_expression` is
idempotent (it only strips surrounding whitespace, and stripping is
idempotent); in general idempotence fails, see the counterexample. -/
theorem simplify_expression_idempotent_of_paren_free (s : String)
    (h : '(' ∉ s.data) :
    simplifyExpr (simplifyExpr s) = simplifyExpr s := by
  have h1 : simplify_expression s.data = pyStrip s.data := simplify_expression_no_paren h
  have h2 : '(' ∉ pyStrip s.data := no_paren_pyStrip h
  simp only [simplifyExpr, h1]
  congr 1
  show simplify_expression (pyStrip s.data) = pyStrip s.data
  rw [simplify_expression_no_paren h2, pyStrip_idem]

/-- Witness for the amended C2 theorem at a concrete parenthesis-free
input. -/
theorem simplify_expression_idempotent_witness :
    simplifyExpr (simplifyExpr " a + b ") = simplifyExpr " a + b " :=
  simplify_expression_idempotent_of_paren_free " a + b " (by decide)

theorem skipWs_nil : skipWs [] = [] := rfl

theorem skipWs_cons_not_space {c : Char} {t : List Char} (h : isPySpace c = false) :
    skipWs (c :: t) = c :: t := by
  simp [skipWs, List.dropWhile_cons, h]

theorem skipWs_cons_space {c : Char} {t : List Char} (h : isPySpace c = true) :
    skipWs (c :: t) = skipWs t := by
  simp [skipWs, List.dropWhile_cons, h]

theorem takeWhile_append_all {p : Char → Bool} {xs : List Char} (ys : List Char)
    (h : ∀ x ∈ xs, p x = true) :
    List.takeWhile p (xs ++ ys) = xs ++ List.takeWhile p ys := by
  induction xs with
  | nil => simp
  | cons a t ih =>
    simp [List.cons_append, List.takeWhile_cons, h a (List.mem_cons_self a t),
      ih (fun x hx => h x (List.mem_cons_of_mem a hx))]

theorem takeWhile_cons_neg {p : Char → Bool} {c : Char} {t : List Char} (h : p c = false) :
    List.takeWhile p (c :: t) = [] := by
  simp [List.takeWhile_cons, h]

theorem digit_char_facts {c : Char} (h : isDigitChar c = true) :
    isPySpace c = false ∧
      c ∉ (['(', ')', '-', '+', '*', '/', '%', '<', '>', '[', ']', ','] : List Char) := by
  constructor
  · cases hs : isPySpace c with
    | false => rfl
    | true =>
      exfalso
      simp only [isPySpace, Bool.or_eq_true, decide_eq_true_eq] at hs
      rcases hs with ((((h1 | h1) | h1) | h1) | h1) | h1 <;> (subst h1; revert h; decide)
  · intro hm
    simp only [List.mem_cons, List.not_mem_nil, or_false] at hm
    rcases hm with h1 | h1 | h1 | h1 | h1 | h1 | h1 | h1 | h1 | h1 | h1 | h1 <;>
      (subst h1; revert h; decide)

theorem digitCh_digit {k : Nat} (h : k < 10) : isDigitChar (digitCh k) = true := by
  interval_cases k <;> decide

theorem natDigits_digits {fuel n : Nat} {c : Char} (h : c ∈ natDigits fuel n) :
    isDigitChar c = true := by
  induction fuel generalizing n with
  | zero => simp [natDigits] at h
  | succ m ih =>
    by_cases hn : n < 10
    · simp only [natDigits, if_pos hn, List.mem_singleton] at h
      exact h ▸ digitCh_digit hn
    · simp only [natDigits, if_neg hn, List.mem_append, List.mem_singleton] at h
      rcases h with h | h
      · exact ih h
      · exact h ▸ digitCh_digit (Nat.mod_lt _ (by omega))

theorem intToChars_chars {i : Int} {c : Char} (h : c ∈ intToChars i) :
    isDigitChar c = true ∨ c = '-' := by
  unfold intToChars at h
  split at h
  · rcases List.mem_cons.mp h with h1 | h1
    · exact Or.inr h1
    · exact Or.inl (natDigits_digits h1)
  · exact Or.inl (natDigits_digits h)

theorem validF_lit {ds : List Char} (hv : validF (.lit ds) = true) :
    ds ≠ [] ∧ (∀ c ∈ ds, isDigitChar c = true) ∧
      ((ds.head? == some '0' && !ds.all (fun c => c = '0')) = false) := by
  simp only [validF, Bool.and_eq_true] at hv
  obtain ⟨⟨h1, h2⟩, h3⟩ := hv
  refine ⟨?_, ?_, ?_⟩
  · intro h; subst h; simp at h1
  · intro c hc; exact (List.all_eq_true.mp h2) c hc
  · revert h3
    cases hb : (ds.head? == some '0') <;> cases ha : ds.all (fun c => c = '0') <;> simp [hb, ha]

theorem digit_ne_all {c : Char} (h : isDigitChar c = true) :
    ¬c = '(' ∧ ¬c = ')' ∧ ¬c = '-' ∧ ¬c = '+' ∧ ¬c = '*' ∧ ¬c = '/' ∧ ¬c = '%' ∧
      ¬c = '<' ∧ ¬c = '>' ∧ ¬c = '[' ∧ ¬c = ']' ∧ ¬c = ',' := by
  obtain ⟨_, hm⟩ := digit_char_facts h
  refine ⟨?_, ?_, ?_, ?_, ?_, ?_, ?_, ?_, ?_, ?_, ?_, ?_⟩ <;>
    (intro he; subst he; exact hm (by decide))

theorem parseNumber_render {ds s : List Char} (hne : ds ≠ [])
    (hall : ∀ c ∈ ds, isDigitChar c = true)
    (hguard : (ds.head? == some '0' && !ds.all (fun c => c = '0')) = false)
    (hs : headNotDigit s) :
    parseNumber (ds ++ s) = some (.pint (digitsToNat ds), s) := by
  have htw : List.takeWhile isDigitChar (ds ++ s) = ds := by
    rw [takeWhile_append_all s hall]
    cases s with
    | nil => simp
    | cons c t => rw [takeWhile_cons_neg (hs c t rfl)]; simp
  have hemp : ds.isEmpty = false := by
    cases ds with
    | nil => exact absurd rfl hne
    | cons a t => rfl
  simp only [parseNumber, htw, hemp, Bool.false_eq_true, if_false, hguard, List.drop_left]

theorem parseF_cons_space {c : Char} {x : List Char} {fuel : Nat} (h : isPySpace c = true) :
    parseF fuel (c :: x) = parseF fuel x := by
  cases fuel with
  | zero => rfl
  | succ m => simp only [parseF, skipWs_cons_space h]

theorem parseT_cons_space {c : Char} {x : List Char} {fuel : Nat} (h : isPySpace c = true) :
    parseT fuel (c :: x) = parseT fuel x := by
  cases fuel with
  | zero => rfl
  | succ m => simp only [parseT, parseF_cons_space h]

theorem parsePowTail_noPow {v : PyVal} {s : List Char} {fuel : Nat}
    (h : noPowStart s) (hf : 1 ≤ fuel) :
    parsePowTail fuel v s = some (v, s) := by
  obtain ⟨m, rfl⟩ : ∃ m, fuel = m + 1 := ⟨fuel - 1, by omega⟩
  cases hsk : skipWs s with
  | nil => simp [parsePowTail, hsk]
  | cons c t =>
    by_cases hc : c = '*'
    · subst hc
      cases t with
      | nil => simp [parsePowTail, hsk]
      | cons c2 r2 =>
        have hc2 : ¬c2 = '*' := fun he => h r2 (by rw [hsk, he])
        simp [parsePowTail, hsk, hc2]
    · simp [parsePowTail, hsk, hc]

theorem FollowF_of_FollowT {s : List Char} (h : FollowT s) : FollowF s :=
  ⟨h.1, fun t heq => h.2 '*' ('*' :: t) heq (by decide)⟩

theorem FollowT_of_FollowE {s : List Char} (h : FollowE s) : FollowT s :=
  ⟨h.1, fun c t heq hc => h.2 c t heq (by
    simp only [List.mem_cons, List.not_mem_nil, or_false] at hc ⊢
    tauto)⟩

theorem FollowE_nil : FollowE ([] : List Char) :=
  ⟨fun c t h => absurd h (by simp), fun c t h => absurd h (by simp [skipWs_nil])⟩

theorem FollowE_rparen (s : List Char) : FollowE (')' :: s) := by
  constructor
  · intro c t h
    injection h with h1 _
    subst h1; decide
  · intro c t h
    rw [skipWs_cons_not_space (by decide)] at h
    injection h with h1 _
    subst h1; decide

theorem FollowF_rFL (l : FactorL) (s : List Char) (h : FollowT s) :
    FollowF (rFL l ++ s) := by
  cases l with
  | nil => simpa [rFL] using FollowF_of_FollowT h
  | cons f rest =>
    constructor
    · intro c t heq
      simp only [rFL, List.cons_append] at heq
      injection heq with h1 _
      subst h1; decide
    · intro t heq
      simp only [rFL, List.cons_append] at heq
      rw [skipWs_cons_space (by decide), skipWs_cons_not_space (by decide)] at heq
      injection heq with _ h2
      injection h2 with h3 _
      exact absurd h3.symm (by decide)

theorem FollowT_rTL (l : TermL) (s : List Char) (h : FollowE s) :
    FollowT (rTL l ++ s) := by
  cases l with
  | nil => simpa [rTL] using FollowT_of_FollowE h
  | cons plus t rest =>
    constructor
    · intro c u heq
      simp only [rTL, List.cons_append] at heq
      injection heq with h1 _
      subst h1; decide
    · intro c u heq
      simp only [rTL, List.cons_append] at heq
      rw [skipWs_cons_space (by decide)] at heq
      cases plus <;> simp only [if_true, if_false, Bool.false_eq_true] at heq <;>
        rw [skipWs_cons_not_space (by decide)] at heq <;>
        (injection heq with h1 _; subst h1; decide)

theorem rF_ne_nil {f : FactorA} (hv : validF f = true) : rF f ≠ [] := by
  cases f with
  | lit ds =>
    have := (validF_lit hv).1
    simpa [rF] using this
  | paren e => simp [rF]

theorem rT_ne_nil {t : TermA} (hv : validT t = true) : rT t ≠ [] := by
  cases t with
  | mk f rest =>
    have hvf : validF f = true := by
      simp only [validT, Bool.and_eq_true] at hv; exact hv.1
    simp only [rT]
    intro h
    exact rF_ne_nil hvf (List.append_eq_nil.mp h).1

mutual

theorem renderF_chars : ∀ (f : FactorA), validF f = true → ∀ c ∈ rF f, renderCharOK c = true
  | .lit ds, hv, c, hc => by
    have hd := (validF_lit hv).2.1 c (by simpa [rF] using hc)
    simp [renderCharOK, hd]
  | .paren e, hv, c, hc => by
    simp only [rF, List.mem_cons, List.mem_append, List.mem_singleton, List.not_mem_nil,
      or_false] at hc
    casesm* _ ∨ _
    all_goals first
      | (subst_vars; decide)
      | exact renderE_chars e hv c (by assumption)

theorem renderFL_chars : ∀ (l : FactorL), validFL l = true → ∀ c ∈ rFL l, renderCharOK c = true
  | .cons f rest, hv, c, hc => by
    obtain ⟨h1, h2⟩ : validF f = true ∧ validFL rest = true := by
      simpa [validFL, Bool.and_eq_true] using hv
    simp only [rFL, List.mem_cons, List.mem_append, List.not_mem_nil, or_false] at hc
    casesm* _ ∨ _
    all_goals first
      | (subst_vars; decide)
      | exact renderF_chars f h1 c (by assumption)
      | exact renderFL_chars rest h2 c (by assumption)
  | .nil, _, c, hc => by simp [rFL] at hc

theorem renderT_chars : ∀ (t : TermA), validT t = true → ∀ c ∈ rT t, renderCharOK c = true
  | .mk f rest, hv, c, hc => by
    obtain ⟨h1, h2⟩ : validF f = true ∧ validFL rest = true := by
      simpa [validT, Bool.and_eq_true] using hv
    simp only [rT, List.mem_append] at hc
    casesm* _ ∨ _
    all_goals first
      | exact renderF_chars f h1 c (by assumption)
      | exact renderFL_chars rest h2 c (by assumption)

theorem renderTL_chars : ∀ (l : TermL), validTL l = true → ∀ c ∈ rTL l, renderCharOK c = true
  | .cons plus t rest, hv, c, hc => by
    obtain ⟨h1, h2⟩ : validT t = true ∧ validTL rest = true := by
      simpa [validTL, Bool.and_eq_true] using hv
    simp only [rTL, List.mem_cons, List.mem_append, List.not_mem_nil, or_false] at hc
    casesm* _ ∨ _
    all_goals first
      | (subst_vars; cases plus <;> decide)
      | (subst_vars; decide)
      | exact renderT_chars t h1 c (by assumption)
      | exact renderTL_chars rest h2 c (by assumption)
  | .nil, _, c, hc => by simp [rTL] at hc

theorem renderE_chars : ∀ (e : ExprA), validE e = true → ∀ c ∈ rE e, renderCharOK c = true
  | .mk t rest, hv, c, hc => by
    obtain ⟨h1, h2⟩ : validT t = true ∧ validTL rest = true := by
      simpa [validE, Bool.and_eq_true] using hv
    simp only [rE, List.mem_append] at hc
    casesm* _ ∨ _
    all_goals first
      | exact renderT_chars t h1 c (by assumption)
      | exact renderTL_chars rest h2 c (by assumption)

end

theorem renderCharOK_ne {c : Char} (h : renderCharOK c = true) :
    ¬c = '[' ∧ ¬c = ']' ∧ ¬c = '<' ∧ ¬c = '>' ∧ ¬c = ',' := by
  simp only [renderCharOK, Bool.or_eq_true, decide_eq_true_eq] at h
  rcases h with ((((((hd | h1) | h1) | h1) | h1) | h1) | h1)
  · obtain ⟨_, _, _, _, _, _, _, h8, h9, h10, h11, h12⟩ := digit_ne_all hd
    exact ⟨h10, h11, h8, h9, h12⟩
  all_goals (subst h1; exact ⟨by decide, by decide, by decide, by decide, by decide⟩)

mutual

theorem lemF : ∀ (f : FactorA) (s : List Char) (fuel : Nat),
    validF f = true → FollowF s → 4 * (rF f ++ s).length + 6 ≤ fuel →
    parseF fuel (rF f ++ s) = some (.pint (vF f), s)
  | .lit ds, s, fuel, hv, hfol, hfuel => by
    obtain ⟨hne, hall, hguard⟩ := validF_lit hv
    obtain ⟨d, ds1, rfl⟩ := List.exists_cons_of_ne_nil hne
    have hd : isDigitChar d = true := hall d (List.mem_cons_self _ _)
    have hdsp := (digit_char_facts hd).1
    obtain ⟨hq1, hq2, hq3, hq4, _⟩ := digit_ne_all hd
    simp only [rF, List.length_append, List.length_cons] at hfuel ⊢
    obtain ⟨m, rfl⟩ : ∃ m, fuel = m + 1 := ⟨fuel - 1, by omega⟩
    rw [List.cons_append]
    simp only [parseF, skipWs_cons_not_space hdsp, if_neg hq3, if_neg hq4]
    obtain ⟨m2, rfl⟩ : ∃ m2, m = m2 + 1 := ⟨m - 1, by omega⟩
    simp only [parseAtomPow, if_neg hq1]
    rw [← List.cons_append, parseNumber_render hne hall hguard hfol.1]
    exact parsePowTail_noPow hfol.2 (by omega)
  | .paren e, s, fuel, hv, hfol, hfuel => by
    have hv' : validE e = true := hv
    have hlen : (rF (.paren e)).length = (rE e).length + 2 := by
      simp [rF, List.length_append]
    simp only [List.length_append, hlen] at hfuel
    obtain ⟨m, rfl⟩ : ∃ m, fuel = m + 1 := ⟨fuel - 1, by omega⟩
    obtain ⟨m2, rfl⟩ : ∃ m2, m = m2 + 1 := ⟨m - 1, by omega⟩
    have hshape : rF (.paren e) ++ s = '(' :: (rE e ++ (')' :: s)) := by
      simp [rF, List.cons_append, List.append_assoc]
    rw [hshape]
    simp only [parseF, skipWs_cons_not_space (by decide : isPySpace '(' = false),
      if_neg (by decide : ¬ ('(' = '-')), if_neg (by decide : ¬ ('(' = '+'))]
    simp only [parseAtomPow, if_pos rfl, if_true]
    rw [lemE e (')' :: s) m2 hv' (FollowE_rparen s)
      (by simp only [List.length_append, List.length_cons]; omega)]
    dsimp only
    rw [skipWs_cons_not_space (by decide : isPySpace ')' = false)]
    simp only [if_pos rfl, if_true]
    rw [parsePowTail_noPow hfol.2 (by omega)]
    simp [vF]

theorem lemFL : ∀ (l : FactorL) (a : Int) (s : List Char) (fuel : Nat),
    validFL l = true → FollowT s → 4 * (rFL l ++ s).length + 7 ≤ fuel →
    loopT fuel (.pint a) (rFL l ++ s) = some (.pint (vFL a l), s)
  | .nil, a, s, fuel, hv, hfol, hfuel => by
    simp only [rFL, List.nil_append] at hfuel ⊢
    obtain ⟨m, rfl⟩ : ∃ m, fuel = m + 1 := ⟨fuel - 1, by omega⟩
    cases hsk : skipWs s with
    | nil => simp [loopT, hsk, vFL]
    | cons c t =>
      have hc := hfol.2 c t hsk
      have h1 : ¬c = '*' := fun h => hc (by rw [h]; decide)
      have h2 : ¬c = '/' := fun h => hc (by rw [h]; decide)
      have h3 : ¬c = '%' := fun h => hc (by rw [h]; decide)
      simp [loopT, hsk, h1, h2, h3, vFL]
  | .cons f rest, a, s, fuel, hv, hfol, hfuel => by
    obtain ⟨hvf, hvr⟩ : validF f = true ∧ validFL rest = true := by
      simpa [validFL, Bool.and_eq_true] using hv
    have hfne : 1 ≤ (rF f).length :=
      List.length_pos.mpr (rF_ne_nil hvf)
    simp only [rFL, List.cons_append, List.length_cons, List.length_append,
      List.append_assoc] at hfuel ⊢
    obtain ⟨m, rfl⟩ : ∃ m, fuel = m + 1 := ⟨fuel - 1, by omega⟩
    have hsk : skipWs (' ' :: '*' :: ' ' :: (rF f ++ (rFL rest ++ s))) =
        '*' :: ' ' :: (rF f ++ (rFL rest ++ s)) := by
      rw [skipWs_cons_space (by decide), skipWs_cons_not_space (by decide)]
    simp only [loopT, hsk, if_pos rfl, if_true, if_neg (by decide : ¬ (' ' = '*'))]
    rw [parseF_cons_space (by decide)]
    rw [lemF f (rFL rest ++ s) m hvf (FollowF_rFL rest s hfol)
      (by simp only [List.length_append]; omega)]
    show loopT m (pyMul (.pint a) (.pint (vF f))) (rFL rest ++ s) =
      some (.pint (vFL a (.cons f rest)), s)
    rw [show pyMul (.pint a) (.pint (vF f)) = .pint (a * vF f) from rfl]
    rw [lemFL rest (a * vF f) s m hvr hfol (by simp only [List.length_append]; omega)]
    simp [vFL]

theorem lemT : ∀ (t : TermA) (s : List Char) (fuel : Nat),
    validT t = true → FollowT s → 4 * (rT t ++ s).length + 7 ≤ fuel →
    parseT fuel (rT t ++ s) = some (.pint (vT t), s)
  | .mk f rest, s, fuel, hv, hfol, hfuel => by
    obtain ⟨hvf, hvr⟩ : validF f = true ∧ validFL rest = true := by
      simpa [validT, Bool.and_eq_true] using hv
    have hfne : 1 ≤ (rF f).length := List.length_pos.mpr (rF_ne_nil hvf)
    simp only [rT, List.length_append, List.append_assoc] at hfuel ⊢
    obtain ⟨m, rfl⟩ : ∃ m, fuel = m + 1 := ⟨fuel - 1, by omega⟩
    simp only [parseT]
    rw [lemF f (rFL rest ++ s) m hvf (FollowF_rFL rest s hfol)
      (by simp only [List.length_append]; omega)]
    dsimp only
    rw [lemFL rest (vF f) s m hvr hfol (by simp only [List.length_append]; omega)]
    simp [vT]

theorem lemTL : ∀ (l : TermL) (a : Int) (s : List Char) (fuel : Nat),
    validTL l = true → FollowE s → 4 * (rTL l ++ s).length + 8 ≤ fuel →
    loopE fuel (.pint a) (rTL l ++ s) = some (.pint (vTL a l), s)
  | .nil, a, s, fuel, hv, hfol, hfuel => by
    simp only [rTL, List.nil_append] at hfuel ⊢
    obtain ⟨m, rfl⟩ : ∃ m, fuel = m + 1 := ⟨fuel - 1, by omega⟩
    cases hsk : skipWs s with
    | nil => simp [loopE, hsk, vTL]
    | cons c t =>
      have hc := hfol.2 c t hsk
      have h1 : ¬c = '+' := fun h => hc (by rw [h]; decide)
      have h2 : ¬c = '-' := fun h => hc (by rw [h]; decide)
      simp [loopE, hsk, h1, h2, vTL]
  | .cons plus t rest, a, s, fuel, hv, hfol, hfuel => by
    obtain ⟨hvt, hvr⟩ : validT t = true ∧ validTL rest = true := by
      simpa [validTL, Bool.and_eq_true] using hv
    have htne : 1 ≤ (rT t).length :=
      List.length_pos.mpr (rT_ne_nil hvt)
    simp only [rTL, List.cons_append, List.length_cons, List.length_append,
      List.append_assoc] at hfuel ⊢
    obtain ⟨m, rfl⟩ : ∃ m, fuel = m + 1 := ⟨fuel - 1, by omega⟩
    cases plus with
    | true =>
      have hsk : skipWs (' ' :: '+' :: ' ' :: (rT t ++ (rTL rest ++ s))) =
          '+' :: ' ' :: (rT t ++ (rTL rest ++ s)) := by
        rw [skipWs_cons_space (by decide), skipWs_cons_not_space (by decide)]
      simp only [if_true]
      simp only [loopE, hsk, if_pos rfl]
      rw [show (' ' :: (rT t ++ (rTL rest ++ s))) =
        (' ' :: rT t) ++ (rTL rest ++ s) from rfl]
      rw [show (' ' :: rT t) ++ (rTL rest ++ s) = ' ' :: (rT t ++ (rTL rest ++ s)) from rfl]
      rw [parseT_cons_space (by decide)]
      rw [lemT t (rTL rest ++ s) m hvt (FollowT_rTL rest s hfol)
        (by simp only [List.length_append]; omega)]
      show loopE m (pyAdd (.pint a) (.pint (vT t))) (rTL rest ++ s) =
        some (.pint (vTL a (.cons true t rest)), s)
      rw [show pyAdd (.pint a) (.pint (vT t)) = .pint (a + vT t) from rfl]
      rw [lemTL rest (a + vT t) s m hvr hfol (by simp only [List.length_append]; omega)]
      simp [vTL]
    | false =>
      have hsk : skipWs (' ' :: '-' :: ' ' :: (rT t ++ (rTL rest ++ s))) =
          '-' :: ' ' :: (rT t ++ (rTL rest ++ s)) := by
        rw [skipWs_cons_space (by decide), skipWs_cons_not_space (by decide)]
      simp only [Bool.false_eq_true, if_false]
      simp only [loopE, hsk, if_neg (by decide : ¬ ('-' = '+')), if_pos rfl, if_true]
      rw [parseT_cons_space (by decide)]
      rw [lemT t (rTL rest ++ s) m hvt (FollowT_rTL rest s hfol)
        (by simp only [List.length_append]; omega)]
      show loopE m (pySub (.pint a) (.pint (vT t))) (rTL rest ++ s) =
        some (.pint (vTL a (.cons false t rest)), s)
      rw [show pySub (.pint a) (.pint (vT t)) = .pint (a - vT t) from rfl]
      rw [lemTL rest (a - vT t) s m hvr hfol (by simp only [List.length_append]; omega)]
      simp [vTL]

theorem lemE : ∀ (e : ExprA) (s : List Char) (fuel : Nat),
    validE e = true → FollowE s → 4 * (rE e ++ s).length + 8 ≤ fuel →
    parseE fuel (rE e ++ s) = some (.pint (vE e), s)
  | .mk t rest, s, fuel, hv, hfol, hfuel => by
    obtain ⟨hvt, hvr⟩ : validT t = true ∧ validTL rest = true := by
      simpa [validE, Bool.and_eq_true] using hv
    have htne : 1 ≤ (rT t).length := List.length_pos.mpr (rT_ne_nil hvt)
    simp only [rE, List.length_append, List.append_assoc] at hfuel ⊢
    obtain ⟨m, rfl⟩ : ∃ m, fuel = m + 1 := ⟨fuel - 1, by omega⟩
    simp only [parseE]
    rw [lemT t (rTL rest ++ s) m hvt (FollowT_rTL rest s hfol)
      (by simp only [List.length_append]; omega)]
    dsimp only
    rw [lemTL rest (vT t) s m hvr hfol (by simp only [List.length_append]; omega)]
    simp [vE]

end

theorem rE_ne_nil {e : ExprA} (hv : validE e = true) : rE e ≠ [] := by
  cases e with
  | mk t rest =>
    have hvt : validT t = true := by
      simp only [validE, Bool.and_eq_true] at hv; exact hv.1
    simp only [rE]
    intro h
    exact rT_ne_nil hvt (List.append_eq_nil.mp h).1

theorem subScan_nil (f : List Char → Option (List Char × List Char)) (fuel : Nat) :
    subScan f fuel [] = [] := by
  cases fuel <;> rfl

/-- A fully literal, well-formed rendered expression evaluates under the
embedded Python `eval` to its standard left-associative value. -/
theorem pyEvalTop_render (a : ExprA) (hv : validE a = true) :
    pyEvalTop (rE a) = some (.pint (vE a)) := by
  have h := lemE a [] (4 * (rE a).length + 8) hv FollowE_nil
    (by simp [List.append_nil])
  rw [List.append_nil] at h
  unfold pyEvalTop
  rw [h]
  rfl

theorem subBrackets_single {e : List Char} (hne : e ≠ []) (hnb : ∀ c ∈ e, ¬c = ']') :
    subBrackets ('[' :: (e ++ [']'])) =
      '[' :: (match pyEvalTop e with | some v => pyValStr v | none => e) ++ [']'] := by
  have htw : List.takeWhile (fun d => (d ≠ ']' : Bool)) (e ++ [']']) = e := by
    rw [takeWhile_append_all [']'] (fun x hx => by simpa using hnb x hx)]
    simp
  have hmatch : bracketMatchAt ('[' :: (e ++ [']'])) =
      some ('[' :: (match pyEvalTop e with | some v => pyValStr v | none => e) ++ [']'], []) := by
    simp only [bracketMatchAt, if_pos rfl, if_true, htw]
    have hemp : e.isEmpty = false := by
      cases e with
      | nil => exact absurd rfl hne
      | cons a t => rfl
    simp only [hemp, Bool.false_eq_true, if_false, List.drop_left]
    cases pyEvalTop e <;> rfl
  have hL : ('[' :: (e ++ [']'])).length = (e.length + 1) + 1 := by
    simp [List.length_append]
  unfold subBrackets
  rw [hL]
  simp only [subScan, hmatch, subScan_nil, List.append_nil]

theorem noMatchAnywhere_cmp {s : List Char} (h : ∀ c ∈ s, ¬c = '<' ∧ ¬c = '>') :
    NoMatchAnywhere cmpMatchAt s := by
  intro n
  cases hd : s.drop n with
  | nil => rfl
  | cons c t =>
    have hc : c ∈ s := List.mem_of_mem_drop (by rw [hd]; exact List.mem_cons_self c t)
    obtain ⟨h1, h2⟩ := h c hc
    simp [cmpMatchAt, h1, h2]

theorem cmpPassLoop_id {s : List Char} (h : subCmp s = s) (n : Nat) :
    cmpPassLoop n s = s := by
  cases n with
  | zero => rfl
  | succ m => simp [cmpPassLoop, h]

theorem cmp_chars_ok {i : Int} {c : Char}
    (hc : c ∈ ('[' :: intToChars i ++ [']'] : List Char)) : ¬c = '<' ∧ ¬c = '>' := by
  rcases List.mem_cons.mp hc with h1 | h1
  · subst h1; exact ⟨by decide, by decide⟩
  rcases List.mem_append.mp h1 with h2 | h2
  · rcases intToChars_chars h2 with hd | hd
    · have hfacts := digit_ne_all hd
      exact ⟨hfacts.2.2.2.2.2.2.2.1, hfacts.2.2.2.2.2.2.2.2.1⟩
    · subst hd; exact ⟨by decide, by decide⟩
  · have : c = ']' := by simpa using h2
    subst this; exact ⟨by decide, by decide⟩

/-- C1: the constant folder's evaluator is Python `eval` with builtins
stripped, not a restricted arithmetic evaluator.  The bracketed
subexpression `2**3` contains the operator `**`, which is outside the
allowed grammar `+ - * / ( ) digits whitespace`, yet `fold_code`
evaluates it and folds the bracket to `[8]` instead of leaving it
untouched (and `fold_expression` likewise folds `2**3` to `8`). -/
theorem fold_code_evaluates_power_op :
    foldCodeStr [] "[2**3]" = "[8]" ∧
      fold_expression [] "2**3".data = "8".data := by
  constructor <;> decide

/-- C3 counterexample: a fully literal division with no remainder is
folded to a Python float literal, not to a decimal integer literal:
`[4/2]` becomes `[2.0]`, not `[2]` (Python `/` is true division and
always yields a float). -/
theorem fold_code_division_yields_float_literal :
    foldCodeStr [] "[4/2]" = "[2.0]" ∧ foldCodeStr [] "[4/2]" ≠ "[2]" := by
  constructor <;> decide

/-- C3 (amended): for every bracketed size expression whose content is a
well-formed fully literal expression over `+ - *`, parentheses and
non-negative integer literals, `fold_code` replaces the bracket contents
with the exact integer value of the expression under standard operator
precedence (left-associative `+ - *` with `*` binding tighter and
parentheses grouping), written as a decimal integer literal.  (With `/`
the numeric value is still exact when the division has no remainder, but
it is written as a float literal — see the counterexample.) -/
theorem fold_code_bracket_exact_value (a : ExprA) (hv : validE a = true) :
    fold_code [] ('[' :: (rE a ++ [']'])) = '[' :: intToChars (vE a) ++ [']'] := by
  have hch := renderE_chars a hv
  have hne : rE a ≠ [] := rE_ne_nil hv
  have hnb : ∀ c ∈ rE a, ¬c = ']' := fun c hc => (renderCharOK_ne (hch c hc)).2.1
  show cmpPassLoop 3 (subCmp (subBrackets (substAll [] ('[' :: (rE a ++ [']']))))) = _
  rw [show substAll [] ('[' :: (rE a ++ [']'])) = '[' :: (rE a ++ [']']) from rfl]
  rw [subBrackets_single hne hnb, pyEvalTop_render a hv]
  have hid : subCmp ('[' :: intToChars (vE a) ++ [']']) =
      '[' :: intToChars (vE a) ++ [']'] :=
    subScan_id (noMatchAnywhere_cmp (fun c hc => cmp_chars_ok hc)) _
  dsimp only
  show cmpPassLoop 3 (subCmp ('[' :: intToChars (vE a) ++ [']'])) =
    '[' :: intToChars (vE a) ++ [']']
  rw [hid]
  exact cmpPassLoop_id hid 3

/-- Witness for the amended C3 theorem: `[2 + 3 * 4]` folds to `[14]`. -/
theorem fold_code_bracket_exact_value_witness :
    validE astExample = true ∧
      fold_code [] ('[' :: (rE astExample ++ [']'])) =
        '[' :: intToChars (vE astExample) ++ [']'] :=
  ⟨by decide, fold_code_bracket_exact_value astExample (by decide)⟩

mutual

theorem flatten_length : ∀ j : JVal, (json_flatten j).length = leafCount j
  | .jarr xs => by simp only [json_flatten, leafCount]; exact flattenList_length xs
  | .jint i => rfl
  | .jfloat q => rfl
  | .jbool b => rfl
  | .jstr s => rfl
  | .jnull => rfl
  | .jobj => rfl

theorem flattenList_length : ∀ xs : List JVal,
    (json_flattenList xs).length = leafCountList xs
  | [] => rfl
  | x :: t => by
    simp only [json_flattenList, leafCountList, List.length_append,
      flatten_length x, flattenList_length t]

end

mutual

theorem flatten_all_numeric : ∀ j : JVal,
    (json_flatten j).all pyIsNumber = allLeavesNumeric j
  | .jarr xs => by
    simp only [json_flatten, allLeavesNumeric]; exact flattenList_all_numeric xs
  | .jint i => by simp [json_flatten, allLeavesNumeric, pyIsNumber]
  | .jfloat q => by simp [json_flatten, allLeavesNumeric, pyIsNumber]
  | .jbool b => by simp [json_flatten, allLeavesNumeric, pyIsNumber]
  | .jstr s => by simp [json_flatten, allLeavesNumeric, pyIsNumber]
  | .jnull => by simp [json_flatten, allLeavesNumeric, pyIsNumber]
  | .jobj => by simp [json_flatten, allLeavesNumeric, pyIsNumber]

theorem flattenList_all_numeric : ∀ xs : List JVal,
    (json_flattenList xs).all pyIsNumber = allLeavesNumericList xs
  | [] => rfl
  | x :: t => by
    simp only [json_flattenList, allLeavesNumericList, List.all_append,
      flatten_all_numeric x, flattenList_all_numeric t]

end

/-- C6 counterexample: a JSON boolean leaf is not numeric, so by the
claim loading must fail with a data-format error; the loader instead
accepts it (Python's `bool` is a subtype of `int`, so it passes
`isinstance(x, (int, float))`) and converts it to the float `1.0`. -/
theorem load_json_array_accepts_bool :
    load_json_array (.jarr [.jbool true]) = some [⟨1, 1⟩] := by
  decide

/-- C6 (amended): loading a nested array structure succeeds exactly when
every leaf is numeric in the Python sense (a number or a boolean —
booleans are accepted because `bool` is an `int` subtype, loading as
`1.0`/`0.0`); on success the result is the depth-first left-to-right
flattening of the leaves converted to floats, and its length is the
total leaf count, at arbitrary nesting depth. -/
theorem load_json_array_flattening (j : JVal) :
    ((load_json_array j).isSome ↔ allLeavesNumeric j = true) ∧
      (∀ xs, load_json_array j = some xs →
        xs = (json_flatten j).map jToFloat ∧ xs.length = leafCount j) := by
  constructor
  · unfold load_json_array
    rw [flatten_all_numeric j]
    cases allLeavesNumeric j <;> simp
  · intro xs hxs
    unfold load_json_array at hxs
    split at hxs
    · obtain rfl : (json_flatten j).map jToFloat = xs := by
        injection hxs
      exact ⟨rfl, by rw [List.length_map, flatten_length]⟩
    · cases hxs

/-- Witness for the amended C6 theorem at the concrete input `[1, [2]]`. -/
theorem load_json_array_flattening_witness :
    ([⟨1, 1⟩, ⟨2, 1⟩] : List PyFloat) = (json_flatten jsonExample).map jToFloat ∧
      ([⟨1, 1⟩, ⟨2, 1⟩] : List PyFloat).length = leafCount jsonExample :=
  (load_json_array_flattening jsonExample).2 [⟨1, 1⟩, ⟨2, 1⟩] (by decide)

theorem dropLit_self_append (xs r : List Char) : dropLit xs (xs ++ r) = some r := by
  induction xs with
  | nil => rfl
  | cons a t ih => simp [dropLit, ih]

theorem word_not_space {c : Char} (h : isWordChar c = true) : isPySpace c = false := by
  cases hs : isPySpace c with
  | false => rfl
  | true =>
    exfalso
    simp only [isPySpace, Bool.or_eq_true, decide_eq_true_eq] at hs
    rcases hs with ((((h1 | h1) | h1) | h1) | h1) | h1 <;> (subst h1; revert h; decide)

theorem braceBal_cons (c : Char) (l : List Char) :
    braceBal (c :: l) = charBal c + braceBal l := by
  simp [braceBal]

theorem takeBalanced_spec : ∀ (body : List Char) (k fuel : Nat) (post : List Char),
    (∀ n, (0 : Int) < (k : Int) + braceBal (body.take n)) →
    ((k : Int) + braceBal body = 1) →
    body.length + 1 ≤ fuel →
    takeBalanced fuel k (body ++ cbr :: post) = body ++ [cbr]
  | [], k, fuel, post, hpre, hfull, hfuel => by
    have hk : k = 1 := by
      simp only [braceBal, List.map_nil, List.sum_nil, add_zero] at hfull
      omega
    subst hk
    obtain ⟨m, rfl⟩ : ∃ m, fuel = m + 1 := ⟨fuel - 1, by omega⟩
    simp [takeBalanced, if_neg (by decide : ¬cbr = obr), if_pos rfl]
  | c :: t, k, fuel, post, hpre, hfull, hfuel => by
    have h1 : (0 : Int) < (k : Int) + charBal c := by
      have := hpre 1
      simpa [List.take_succ_cons, braceBal_cons, braceBal] using this
    obtain ⟨m, rfl⟩ : ∃ m, fuel = m + 1 :=
      ⟨fuel - 1, by simp only [List.length_cons] at hfuel; omega⟩
    have hknew : ((if c = obr then k + 1 else if c = cbr then k - 1 else k : Nat) : Int) =
        (k : Int) + charBal c := by
      by_cases ho : c = obr
      · subst ho
        rw [if_pos rfl, show charBal obr = 1 from by decide]
        omega
      · by_cases hc : c = cbr
        · subst hc
          rw [show charBal cbr = -1 from by decide] at h1 ⊢
          have hk2 : 2 ≤ k := by omega
          rw [if_neg (by decide : ¬cbr = obr), if_pos rfl]
          omega
        · rw [if_neg ho, if_neg hc, show charBal c = 0 from by simp [charBal, ho, hc]]
          omega
    have hne : ¬(if c = obr then k + 1 else if c = cbr then k - 1 else k) = 0 := by
      omega
    have hc1 : ∀ n, (0 : Int) <
        ((if c = obr then k + 1 else if c = cbr then k - 1 else k : Nat) : Int) +
          braceBal (t.take n) := by
      intro n
      have h2 := hpre (n + 1)
      rw [List.take_succ_cons, braceBal_cons] at h2
      omega
    have hc2 : ((if c = obr then k + 1 else if c = cbr then k - 1 else k : Nat) : Int) +
        braceBal t = 1 := by
      rw [braceBal_cons] at hfull
      omega
    have hc3 : t.length + 1 ≤ m := by
      simp only [List.length_cons] at hfuel
      omega
    have hrec := takeBalanced_spec t _ m post hc1 hc2 hc3
    show takeBalanced (m + 1) k ((c :: t) ++ cbr :: post) = (c :: t) ++ [cbr]
    rw [List.cons_append]
    show (if (if c = obr then k + 1 else if c = cbr then k - 1 else k) = 0 then [c]
      else c :: takeBalanced m (if c = obr then k + 1 else if c = cbr then k - 1 else k)
        (t ++ cbr :: post)) = (c :: t) ++ [cbr]
    rw [if_neg hne, hrec]
    rfl

theorem findOpen_of_matchAt {name s r : List Char} (h : matchOpenAt name s = some r) :
    ∀ fuel, 1 ≤ fuel → findOpen name fuel s = some r := by
  intro fuel hf
  obtain ⟨m, rfl⟩ : ∃ m, fuel = m + 1 := ⟨fuel - 1, by omega⟩
  cases s with
  | nil =>
    have hnone : matchOpenAt name [] = none := rfl
    rw [hnone] at h
    cases h
  | cons c t => simp [findOpen, h]

/-- C8 counterexample: the extractor strips surrounding whitespace, so
it does not return the text strictly between the braces: for
`void f(int x) { int a; }` the text strictly between the braces is
`" int a; "` but the extractor returns `"int a;"`. -/
theorem read_function_body_strips_whitespace :
    read_function_body "void f(int x) \x7b int a; \x7d".data "f".data = some "int a;".data ∧
      read_function_body "void f(int x) \x7b int a; \x7d".data "f".data ≠
        some " int a; ".data := by
  constructor <;> decide

/-- C8 (amended): when the source contains the declaration-style opening
pattern (`void`, the name, a non-empty parameter list, `{`), the
extractor returns the text strictly between the opening brace and its
matching brace — found by the balanced scan that increments on `{` and
decrements on `}` — stripped of leading and trailing whitespace; and it
returns nothing whenever the opening pattern is absent from the source. -/
theorem read_function_body_extracts_balanced :
    (∀ name ps body post : List Char,
      (∀ c ∈ name, isWordChar c = true) → name ≠ [] →
      (∀ c ∈ ps, ¬c = ')') → ps ≠ [] →
      braceBal body = 0 → (∀ n < body.length, 0 ≤ braceBal (body.take n)) →
      read_function_body
        ("void ".data ++ (name ++ ('(' :: (ps ++ (')' :: ' ' :: obr ::
          (body ++ (cbr :: post))))))) name = some (pyStrip body)) ∧
    (∀ content name : List Char,
      findOpen name content.length content = none →
      read_function_body content name = none) := by
  constructor
  · intro name ps body post hnw hnne hpsp hpsne hbal hpref
    obtain ⟨nc, nt, rfl⟩ : ∃ nc nt, name = nc :: nt := by
      cases name with
      | nil => exact absurd rfl hnne
      | cons a t => exact ⟨a, t, rfl⟩
    have hncw : isPySpace nc = false :=
      word_not_space (hnw nc (List.mem_cons_self _ _))
    have e2 : List.dropWhile isPySpace (' ' :: ((nc :: nt) ++ ('(' :: (ps ++ (')' :: ' ' ::
        obr :: (body ++ (cbr :: post))))))) = (nc :: nt) ++ ('(' :: (ps ++ (')' :: ' ' ::
        obr :: (body ++ (cbr :: post))))) := by
      simp [List.cons_append, List.dropWhile_cons, hncw,
        show isPySpace ' ' = true from by decide]
    have e4 : List.dropWhile isPySpace ('(' :: (ps ++ (')' :: ' ' :: obr ::
        (body ++ (cbr :: post))))) = '(' :: (ps ++ (')' :: ' ' :: obr ::
        (body ++ (cbr :: post)))) := by
      rw [List.dropWhile_cons]
      simp [show isPySpace '(' = false from by decide]
    have htw : List.takeWhile (fun d => (d ≠ ')' : Bool))
        (ps ++ (')' :: ' ' :: obr :: (body ++ (cbr :: post)))) = ps := by
      rw [takeWhile_append_all _ (fun x hx => by simpa using hpsp x hx)]
      simp
    have hemp : ps.isEmpty = false := by
      cases ps with
      | nil => exact absurd rfl hpsne
      | cons a t => rfl
    have e7 : List.dropWhile isPySpace (' ' :: obr :: (body ++ (cbr :: post))) =
        obr :: (body ++ (cbr :: post)) := by
      simp [List.dropWhile_cons, show isPySpace ' ' = true from by decide,
        show isPySpace obr = false from by decide]
    have hmatch : matchOpenAt (nc :: nt)
        ("void ".data ++ ((nc :: nt) ++ ('(' :: (ps ++ (')' :: ' ' :: obr ::
          (body ++ (cbr :: post))))))) = some (body ++ (cbr :: post)) := by
      show matchOpenAt (nc :: nt)
        ("void".data ++ (' ' :: ((nc :: nt) ++ ('(' :: (ps ++ (')' :: ' ' :: obr ::
          (body ++ (cbr :: post)))))))) = some (body ++ (cbr :: post))
      simp only [matchOpenAt, dropLit_self_append, e2, e4, htw, hemp, e7,
        dropLit_self_append, show isPySpace ' ' = true from by decide, if_true,
        Bool.false_eq_true, if_false, List.drop_left, if_pos rfl]
    unfold read_function_body
    rw [findOpen_of_matchAt hmatch _ (by simp [List.length_append])]
    have hscan := takeBalanced_spec body 1 (body ++ (cbr :: post)).length post
      (fun n => by
        by_cases hn : n < body.length
        · have := hpref n hn
          omega
        · rw [List.take_of_length_le (by omega)]
          omega)
      (by omega)
      (by simp only [List.length_append, List.length_cons]; omega)
    simp only [hscan, List.dropLast_concat]
  · intro content name h
    unfold read_function_body
    rw [h]

/-- Witness for the amended C8 theorem at a concrete source with a
nested brace in the body. -/
theorem read_function_body_extracts_balanced_witness :
    read_function_body
      ("void ".data ++ ("f".data ++ ('(' :: ("int x".data ++ (')' :: ' ' :: obr ::
        (" if (1) \x7b b; \x7d ".data ++ (cbr :: " tail".data))))))) "f".data =
      some (pyStrip " if (1) \x7b b; \x7d ".data) :=
  read_function_body_extracts_balanced.1 "f".data "int x".data
    " if (1) \x7b b; \x7d ".data " tail".data
    (by decide) (by decide) (by decide) (by decide) (by decide) (by decide)

theorem dropLit_some_eq : ∀ {lit s r : List Char}, dropLit lit s = some r → s = lit ++ r
  | [], s, r, h => by
    simp only [dropLit, Option.some.injEq] at h
    rw [List.nil_append, h]
  | p :: ps, [], r, h => by cases h
  | p :: ps, c :: t, r, h => by
    by_cases hc : c = p
    · subst hc
      simp only [dropLit, if_pos rfl] at h
      rw [List.cons_append, dropLit_some_eq h]
    · simp [dropLit, hc] at h

theorem subScanSt_id {f : List Char → Option (List Char × List Char × (TransformStats → TransformStats))}
    {s : List Char} (h : ∀ n, f (s.drop n) = none) :
    ∀ fuel st, subScanSt f fuel st s = (s, st) := by
  intro fuel
  induction fuel generalizing s with
  | zero => intro st; rfl
  | succ m ih =>
    intro st
    cases s with
    | nil => rfl
    | cons c t =>
      have h0 := h 0
      simp only [List.drop_zero] at h0
      have ht : ∀ n, f (t.drop n) = none := fun n => h (n + 1)
      simp [subScanSt, h0, ih ht]

theorem subScanSt_run {f : List Char → Option (List Char × List Char × (TransformStats → TransformStats))}
    {repl r : List Char} {upd : TransformStats → TransformStats} :
    ∀ (pre : List Char) {rest : List Char} (fuel : Nat) (st : TransformStats),
    f [] = none →
    (∀ n, n < pre.length → f ((pre ++ rest).drop n) = none) →
    f rest = some (repl, r, upd) →
    (∀ n, f (r.drop n) = none) →
    pre.length + 1 ≤ fuel →
    subScanSt f fuel st (pre ++ rest) = (pre ++ (repl ++ r), upd st)
  | [], rest, fuel, st, hf0, hpre, hm, hr, hfuel => by
    obtain ⟨m, rfl⟩ : ∃ m, fuel = m + 1 := ⟨fuel - 1, by omega⟩
    cases rest with
    | nil => rw [hf0] at hm; cases hm
    | cons c t =>
      simp only [List.nil_append, subScanSt, hm, subScanSt_id hr m (upd st)]
  | c :: pt, rest, fuel, st, hf0, hpre, hm, hr, hfuel => by
    obtain ⟨m, rfl⟩ : ∃ m, fuel = m + 1 :=
      ⟨fuel - 1, by simp only [List.length_cons] at hfuel; omega⟩
    have h0 := hpre 0 (by simp)
    simp only [List.drop_zero, List.cons_append] at h0
    have hrec := subScanSt_run pt m st hf0
      (fun n hn => by
        have := hpre (n + 1) (by simp only [List.length_cons]; omega)
        simpa using this)
      hm hr (by simp only [List.length_cons] at hfuel; omega)
    simp only [List.cons_append, subScanSt, List.append_eq, h0, hrec]

theorem pyStrip_of_no_space {s : List Char} (h : ∀ c ∈ s, isPySpace c = false) :
    pyStrip s = s := by
  unfold pyStrip
  have h1 : List.dropWhile isPySpace s = s := by
    cases s with
    | nil => rfl
    | cons c t => rw [List.dropWhile_cons, h c (List.mem_cons_self _ _)]; simp
  rw [h1]
  rw [List.rdropWhile_eq_self_iff]
  intro hne
  exact fun hc => by
    rw [h _ (List.getLast_mem hne)] at hc
    cases hc

theorem simplify_expression_digits {s : List Char} (h : ∀ c ∈ s, isDigitChar c = true) :
    simplify_expression s = s := by
  rw [simplify_expression_no_paren (fun hc => by
    have := (digit_ne_all (h _ hc)).1
    exact this rfl)]
  exact pyStrip_of_no_space (fun c hc => (digit_char_facts (h c hc)).1)

theorem callocMatchAt_none_of_no_space {s : List Char} (h : ' ' ∉ s) :
    callocMatchAt s = none := by
  unfold callocMatchAt
  cases hd : dropLit "float *".data s with
  | none => rfl
  | some r1 =>
    exfalso
    exact h (dropLit_some_eq hd ▸ List.mem_append_left _ (by decide))

theorem freeMatchAt_none_of_no_lparen {s : List Char} (h : '(' ∉ s) :
    freeMatchAt s = none := by
  unfold freeMatchAt
  cases hd : dropLit "free(".data s with
  | none => rfl
  | some r1 =>
    exfalso
    exact h (dropLit_some_eq hd ▸ List.mem_append_left _ (by decide))

theorem vlaMatchAt_none_of_no_lbracket {s : List Char} (h : '[' ∉ s) :
    vlaMatchAt s = none := by
  unfold vlaMatchAt
  cases hd : dropLit "float ".data s with
  | none => rfl
  | some r1 =>
    dsimp only
    by_cases hv : (r1.takeWhile isWordChar).isEmpty
    · simp [hv]
    · simp only [hv, Bool.false_eq_true, if_false]
      split
      · rename_i r2 heq
        exfalso
        apply h
        rw [dropLit_some_eq hd]
        refine List.mem_append_right _ ?_
        have h2 : '[' ∈ r1.drop (r1.takeWhile isWordChar).length := by
          rw [heq]
          exact List.mem_cons_self _ _
        exact List.drop_subset _ _ h2
      · rfl

theorem dropLit_none_mid {lit pre rest : List Char} {n : Nat} {badc r0 : Char} {rt : List Char}
    (hrest : rest = r0 :: rt) (hb1 : badc ∈ lit) (hb2 : badc ∉ pre) (hr0 : r0 ∉ lit.drop 1)
    (hn : n < pre.length) :
    dropLit lit (pre.drop n ++ rest) = none := by
  cases hdl : dropLit lit (pre.drop n ++ rest) with
  | none => rfl
  | some r1 =>
    exfalso
    have hx := dropLit_some_eq hdl
    by_cases hle : lit.length ≤ (pre.drop n).length
    · have h1 : (pre.drop n ++ rest).take lit.length = lit := by
        rw [hx]
        exact List.take_left lit r1
      have h2 : (pre.drop n ++ rest).take lit.length = (pre.drop n).take lit.length :=
        List.take_append_of_le_length hle
      have h3 : badc ∈ pre.drop n := by
        refine List.take_subset lit.length _ ?_
        rw [← h2, h1]
        exact hb1
      exact hb2 (List.drop_subset _ _ h3)
    · push_neg at hle
      have hk1 : 1 ≤ (pre.drop n).length := by
        have h9 : (pre.drop n).length = pre.length - n := List.length_drop n pre
        omega
      have h4 : (pre.drop n ++ rest).drop (pre.drop n).length = rest :=
        List.drop_left _ _
      have h5 : rest = lit.drop (pre.drop n).length ++ r1 := by
        rw [← h4, hx, List.drop_append_of_le_length (Nat.le_of_lt hle)]
      cases hdk : lit.drop (pre.drop n).length with
      | nil =>
        have hlen3 : (lit.drop (pre.drop n).length).length = 0 := by
          rw [hdk]
          rfl
        rw [List.length_drop] at hlen3
        omega
      | cons d dt =>
        rw [hdk] at h5
        rw [hrest] at h5
        have hd0 : r0 = d := by
          injection h5
        apply hr0
        rw [hd0]
        have hdm : d ∈ lit.drop (pre.drop n).length := by
          rw [hdk]
          exact List.mem_cons_self d dt
        have heq : lit.drop (pre.drop n).length =
            (lit.drop 1).drop ((pre.drop n).length - 1) := by
          rw [List.drop_drop]
          have h10 : 1 + ((pre.drop n).length - 1) = (pre.drop n).length := by omega
          rw [h10]
        rw [heq] at hdm
        exact List.drop_subset _ _ hdm

theorem eq_of_cons_suffix_unique {c : Char} {U V s t : List Char}
    (hs : s = U ++ c :: V) (hU : c ∉ U) (hV : c ∉ V)
    (hsuf : (c :: t) <:+ s) : t = V := by
  obtain ⟨p, hp⟩ := hsuf
  rw [hs] at hp
  have hlen : p.length = U.length := by
    by_contra hne
    rcases Nat.lt_or_ge p.length U.length with hlt | hge
    · have h4 : (p ++ c :: t).drop p.length = c :: t := List.drop_left _ _
      have h5 : c :: t = U.drop p.length ++ c :: V := by
        rw [← h4, hp, List.drop_append_of_le_length (Nat.le_of_lt hlt)]
      cases hud : U.drop p.length with
      | nil =>
        have := congrArg List.length hud
        simp only [List.length_drop, List.length_nil] at this
        omega
      | cons d dt =>
        rw [hud] at h5
        have hcd : c = d := by injection h5
        apply hU
        rw [hcd]
        exact List.drop_subset _ _ (hud ▸ List.mem_cons_self d dt)
    · have hgt : U.length < p.length := by omega
      have h4 : (p ++ c :: t).drop p.length = c :: t := List.drop_left _ _
      have h5 : c :: t = (U ++ c :: V).drop p.length := by rw [← h4, hp]
      have h6 : (U ++ c :: V).drop p.length = (c :: V).drop (p.length - U.length) := by
        conv_lhs => rw [show p.length = U.length + (p.length - U.length) from by omega]
        exact List.drop_append _
      have h7 : (c :: V).drop (p.length - U.length) = V.drop (p.length - U.length - 1) := by
        rw [show p.length - U.length = (p.length - U.length - 1) + 1 from by omega]
        rfl
      rw [h6, h7] at h5
      apply hV
      have : c ∈ V.drop (p.length - U.length - 1) := by
        rw [← h5]
        exact List.mem_cons_self _ _
      exact List.drop_subset _ _ this
  obtain ⟨-, h8⟩ := List.append_inj hp hlen
  injection h8

theorem wOp0_noMatch_of_no_op {op : Char} {s : List Char} (h : op ∉ s) :
    NoMatchAnywhere (wOp0MatchAt op) s := by
  intro n
  unfold wOp0MatchAt
  dsimp only
  by_cases hA : (((s.drop n).takeWhile isWordChar).isEmpty : Bool)
  · simp [hA]
  · simp only [Bool.not_eq_true] at hA
    simp only [hA, Bool.false_eq_true, if_false]
    cases hm : ((s.drop n).drop ((s.drop n).takeWhile isWordChar).length).dropWhile isPySpace with
    | nil => rfl
    | cons c r2 =>
      by_cases hc : c = op
      · exfalso
        apply h
        subst hc
        have s1 : (s.drop n).drop ((s.drop n).takeWhile isWordChar).length <:+ s.drop n :=
          List.drop_suffix _ _
        have s2 : (c :: r2) <:+
            (s.drop n).drop ((s.drop n).takeWhile isWordChar).length := by
          rw [← hm]
          exact List.dropWhile_suffix _
        have s3 : (c :: r2) <:+ s := (s2.trans s1).trans (List.drop_suffix n s)
        exact s3.subset (List.mem_cons_self _ _)
      · simp [hc]

theorem wOp0_noMatch_of_unique {op : Char} {U V s : List Char}
    (hs : s = U ++ op :: V) (hU : op ∉ U) (hV : op ∉ V)
    (hz : ∀ r3, V.dropWhile isPySpace ≠ '0' :: r3) :
    NoMatchAnywhere (wOp0MatchAt op) s := by
  intro n
  unfold wOp0MatchAt
  dsimp only
  by_cases hA : (((s.drop n).takeWhile isWordChar).isEmpty : Bool)
  · simp [hA]
  · simp only [Bool.not_eq_true] at hA
    simp only [hA, Bool.false_eq_true, if_false]
    cases hm : ((s.drop n).drop ((s.drop n).takeWhile isWordChar).length).dropWhile isPySpace with
    | nil => rfl
    | cons c r2 =>
      by_cases hc : c = op
      · subst hc
        have s1 : (s.drop n).drop ((s.drop n).takeWhile isWordChar).length <:+ s.drop n :=
          List.drop_suffix _ _
        have s2 : (c :: r2) <:+
            (s.drop n).drop ((s.drop n).takeWhile isWordChar).length := by
          rw [← hm]
          exact List.dropWhile_suffix _
        have s3 : (c :: r2) <:+ s := (s2.trans s1).trans (List.drop_suffix n s)
        have hr2 : r2 = V := eq_of_cons_suffix_unique hs hU hV s3
        dsimp only
        rw [if_pos rfl, hr2]
        cases hdw : V.dropWhile isPySpace with
        | nil => rfl
        | cons d r3 =>
          split
          · rename_i r4 heq
            exfalso
            exact hz r4 (hdw.trans heq)
          · rfl
      · simp [hc]

theorem noMatchAnywhere_split {f : List Char → Option (List Char × List Char)}
    {P Q : List Char}
    (hP : ∀ c (t : List Char), c ∈ P → f (c :: t) = none)
    (hQ : NoMatchAnywhere f Q) : NoMatchAnywhere f (P ++ Q) := by
  intro n
  by_cases hn : n < P.length
  · rw [List.drop_append_of_le_length (Nat.le_of_lt hn)]
    cases hd : P.drop n with
    | nil =>
      have h9 : (P.drop n).length = 0 := by rw [hd]; rfl
      rw [List.length_drop] at h9
      omega
    | cons c t =>
      rw [List.cons_append]
      exact hP c _ (List.drop_subset _ _ (hd ▸ List.mem_cons_self c t))
  · push_neg at hn
    have h9 : (P ++ Q).drop n = Q.drop (n - P.length) := by
      conv_lhs => rw [show n = P.length + (n - P.length) from by omega]
      exact List.drop_append _
    rw [h9]
    exact hQ _

theorem noMatchAnywhere_of_bounded {f : List Char → Option (List Char × List Char)}
    {s : List Char} (h : ∀ n, n ≤ s.length → f (s.drop n) = none) :
    NoMatchAnywhere f s := by
  intro n
  by_cases hn : n ≤ s.length
  · exact h n hn
  · rw [List.drop_eq_nil_of_le (by omega)]
    have h2 := h s.length (Nat.le_refl _)
    rwa [List.drop_eq_nil_of_le (Nat.le_refl _)] at h2

theorem parenDepthAux_le_count : ∀ (s : List Char) (cur m : Nat),
    parenDepthAux s cur m ≤ Nat.max m (cur + s.count '(')
  | [], cur, m => by simp [parenDepthAux, List.count_nil]
  | c :: t, cur, m => by
    by_cases h1 : c = '('
    · subst h1
      have hstep : parenDepthAux ('(' :: t) cur m
          = parenDepthAux t (cur + 1) (Nat.max m (cur + 1)) := rfl
      rw [hstep]
      have ih := parenDepthAux_le_count t (cur + 1) (Nat.max m (cur + 1))
      have hc : ('(' :: t).count '(' = t.count '(' + 1 := by
        simp [List.count_cons]
      rw [hc]
      refine Nat.le_trans ih (Nat.max_le.mpr ⟨Nat.max_le.mpr ⟨Nat.le_max_left _ _, ?_⟩, ?_⟩)
      · exact Nat.le_trans (by omega) (Nat.le_max_right m (cur + (t.count '(' + 1)))
      · exact Nat.le_trans (by omega) (Nat.le_max_right m (cur + (t.count '(' + 1)))
    · by_cases h2 : c = ')'
      · subst h2
        have hstep : parenDepthAux (')' :: t) cur m = parenDepthAux t (cur - 1) m := rfl
        rw [hstep]
        have ih := parenDepthAux_le_count t (cur - 1) m
        have hc : (')' :: t).count '(' = t.count '(' := by
          simp [List.count_cons]
        rw [hc]
        refine Nat.le_trans ih (Nat.max_le.mpr ⟨Nat.le_max_left _ _, ?_⟩)
        exact Nat.le_trans (by omega) (Nat.le_max_right m (cur + t.count '('))
      · have hstep : parenDepthAux (c :: t) cur m = parenDepthAux t cur m := by
          simp only [parenDepthAux, if_neg h1, if_neg h2]
        rw [hstep]
        have ih := parenDepthAux_le_count t cur m
        have hc : (c :: t).count '(' = t.count '(' := by
          rw [List.count_cons, if_neg (fun h => h1 (eq_of_beq h)), Nat.add_zero]
        rw [hc]
        exact ih

theorem parenDepth_le_count (s : List Char) : parenDepth s ≤ s.count '(' := by
  have h := parenDepthAux_le_count s 0 0
  simpa [parenDepth] using h

/-- C9 (counterexample): rewriting
`float *x = calloc((a+b)*(c+d), sizeof(float));` records a warning for
the buffer size although the surviving simplified expression
`(a+b)*(c+d)` has only one level of parenthesis nesting: the code's
condition `"(" in simplified and simplified.count("(") > 1` counts `(`
occurrences, not nesting levels. -/
theorem calloc_warning_without_nesting :
    (transform_calloc_to_vla
        "float *x = calloc((a+b)*(c+d), sizeof(float));".data).2.warnings =
      ["Complex size expression for x: (a+b)*(c+d)".data] ∧
    parenDepth (simplify_expression "(a+b)*(c+d)".data) = 1 :=
  ⟨by decide, by decide⟩

/-- C9 (amended): during calloc-to-stack rewriting a warning is
recorded for a rewritten buffer's size expression if and only if the
simplified expression contains at least two `(` characters.  Because
the nesting depth of an expression never exceeds its `(` count, more
than one level of nested parentheses still implies a warning, but the
converse direction of the original claim is false (see the
counterexample). -/
theorem calloc_warning_iff_paren_count (size : List Char) :
    (callocWarn (simplify_expression size) = true ↔
      2 ≤ (simplify_expression size).count '(') ∧
    (2 ≤ parenDepth (simplify_expression size) →
      callocWarn (simplify_expression size) = true) := by
  have hiff : ∀ x : List Char, callocWarn x = true ↔ 2 ≤ x.count '(' := by
    intro x
    unfold callocWarn
    simp only [Bool.and_eq_true, decide_eq_true_eq]
    constructor
    · rintro ⟨-, h2⟩
      omega
    · intro h2
      refine ⟨?_, by omega⟩
      have hpos : 0 < x.count '(' := by omega
      exact List.count_pos_iff.mp hpos
  refine ⟨hiff _, fun hd => (hiff _).mpr ?_⟩
  exact Nat.le_trans hd (parenDepth_le_count _)

theorem calloc_warning_iff_paren_count_witness :
    callocWarn (simplify_expression "((a+b))".data) = true :=
  (calloc_warning_iff_paren_count "((a+b))".data).2 (by decide)

/-- C5 (counterexample): on
`float *x = calloc(5, sizeof(float));` followed by `free((x));` the
rewriter turns the calloc into the VLA declaration `float x[5];`, but
the deallocation `free((x));` does not match the `free\((\w+)\);`
pattern, so it is not commented out (`frees_removed` stays 0); the
final simplification loop even rewrites it to the plainly executable
`free(x);` — a deallocation of a rewritten buffer survives as
executable code, contradicting the claim. -/
theorem transform_free_parenthesized_survives :
    transform_calloc_to_vla
        "float *x = calloc(5, sizeof(float));\nfree((x));".data =
      ("float x[5];\nfree(x);".data, ⟨1, 0, [], 0⟩) := by
  decide

theorem not_mem_append2 {a : Char} {l1 l2 : List Char} (h1 : a ∉ l1) (h2 : a ∉ l2) :
    a ∉ l1 ++ l2 := fun hm => (List.mem_append.mp hm).elim h1 h2

theorem not_mem_cons2 {a c : Char} {l : List Char} (h1 : ¬a = c) (h2 : a ∉ l) :
    a ∉ c :: l := fun hm => (List.mem_cons.mp hm).elim h1 h2

theorem not_mem_word {a : Char} {l : List Char} (hw : ∀ c ∈ l, isWordChar c = true)
    (ha : isWordChar a = false) : a ∉ l := fun hm => by rw [hw a hm] at ha; cases ha

theorem not_mem_digit {a : Char} {l : List Char} (hd : ∀ c ∈ l, isDigitChar c = true)
    (ha : isDigitChar a = false) : a ∉ l := fun hm => by rw [hd a hm] at ha; cases ha

theorem takeWhile_word_stop {xs : List Char} (h : ∀ c ∈ xs, isWordChar c = true)
    {c : Char} (hc : isWordChar c = false) (ys : List Char) :
    List.takeWhile isWordChar (xs ++ c :: ys) = xs := by
  rw [takeWhile_append_all _ h, takeWhile_cons_neg hc, List.append_nil]

theorem takeWhile_ne_stop (bad : Char) {xs : List Char} (h : ∀ c ∈ xs, ¬c = bad)
    (ys : List Char) :
    List.takeWhile (fun c => c ≠ bad) (xs ++ bad :: ys) = xs := by
  rw [takeWhile_append_all _ (fun x hx => decide_eq_true (h x hx)),
    takeWhile_cons_neg (by simp), List.append_nil]

theorem parenIdentMatchAt_none_of_head {c : Char} {t : List Char} (h : ¬c = '(') :
    parenIdentMatchAt (c :: t) = none := by
  unfold parenIdentMatchAt
  split
  · rename_i t2 heq
    exfalso
    apply h
    injection heq with h1 h2
  · rfl

theorem isEmpty_false_of_ne_nil {l : List Char} (h : l ≠ []) : l.isEmpty = false := by
  cases l with
  | nil => exact absurd rfl h
  | cons a t => rfl

theorem callocMatchAt_template {name size : List Char} (h1 : name ≠ [])
    (h2 : ∀ c ∈ name, isWordChar c = true) (h3 : size ≠ [])
    (h4 : ∀ c ∈ size, isDigitChar c = true) (rest : List Char) :
    callocMatchAt ("float *".data ++ (name ++ (" = calloc(".data ++ (size ++
        (", sizeof(float));".data ++ rest))))) =
      some ("float ".data ++ name ++ '[' :: (simplify_expression size ++ "];".data), rest,
        fun st => { st with callocs_replaced := st.callocs_replaced + 1 }) := by
  have hsimp : simplify_expression size = size := simplify_expression_digits h4
  have hw : callocWarn size = false := by
    unfold callocWarn
    have hnp : '(' ∉ size := not_mem_digit h4 (by decide)
    simp [hnp]
  unfold callocMatchAt
  rw [dropLit_self_append]
  dsimp only
  have htw : List.takeWhile isWordChar
      (name ++ (" = calloc(".data ++ (size ++ (", sizeof(float));".data ++ rest)))) = name :=
    takeWhile_word_stop h2 (by decide)
      ("= calloc(".data ++ (size ++ (", sizeof(float));".data ++ rest)))
  rw [htw, isEmpty_false_of_ne_nil h1]
  simp only [Bool.false_eq_true, if_false]
  rw [List.drop_left, dropLit_self_append]
  dsimp only
  have hsz : List.takeWhile (fun c => c ≠ ',')
      (size ++ (", sizeof(float));".data ++ rest)) = size :=
    takeWhile_ne_stop ','
      (fun c hc => (digit_ne_all (h4 c hc)).2.2.2.2.2.2.2.2.2.2.2)
      (" sizeof(float));".data ++ rest)
  rw [hsz, isEmpty_false_of_ne_nil h3]
  simp only [Bool.false_eq_true, if_false]
  rw [List.drop_left, dropLit_self_append]
  dsimp only
  simp [hsimp, hw]

theorem freeMatchAt_template {name : List Char} (h1 : name ≠ [])
    (h2 : ∀ c ∈ name, isWordChar c = true) (rest : List Char) :
    freeMatchAt ("free(".data ++ (name ++ (");".data ++ rest))) =
      some ("// ".data ++ name ++ " auto-freed (VLA)".data, rest,
        fun st => { st with frees_removed := st.frees_removed + 1 }) := by
  unfold freeMatchAt
  rw [dropLit_self_append]
  dsimp only
  have htw : List.takeWhile isWordChar (name ++ (");".data ++ rest)) = name :=
    takeWhile_word_stop h2 (by decide) (";".data ++ rest)
  rw [htw, isEmpty_false_of_ne_nil h1]
  simp only [Bool.false_eq_true, if_false]
  rw [List.drop_left, dropLit_self_append]

theorem vlaMatchAt_template {name size : List Char} (h1 : name ≠ [])
    (h2 : ∀ c ∈ name, isWordChar c = true) (h3 : size ≠ [])
    (h4 : ∀ c ∈ size, isDigitChar c = true) (rest : List Char) :
    vlaMatchAt ("float ".data ++ (name ++ ('[' :: (size ++ ("];".data ++ rest))))) =
      some ("float ".data ++ name ++ '[' :: (simplify_expression size ++ "];".data), rest,
        fun st => st) := by
  have hsimp : simplify_expression size = size := simplify_expression_digits h4
  unfold vlaMatchAt
  rw [dropLit_self_append]
  dsimp only
  have htw : List.takeWhile isWordChar (name ++ ('[' :: (size ++ ("];".data ++ rest)))) =
      name := takeWhile_word_stop h2 (by decide) (size ++ ("];".data ++ rest))
  rw [htw, isEmpty_false_of_ne_nil h1]
  simp only [Bool.false_eq_true, if_false]
  rw [List.drop_left]
  have hsz : List.takeWhile (fun c => c ≠ ']') (size ++ ("];".data ++ rest)) = size :=
    takeWhile_ne_stop ']'
      (fun c hc => (digit_ne_all (h4 c hc)).2.2.2.2.2.2.2.2.2.2.1)
      (";".data ++ rest)
  split
  · rename_i r2 heq
    injection heq with hh ht
    subst ht
    rw [hsz, isEmpty_false_of_ne_nil h3]
    simp only [Bool.false_eq_true, if_false]
    rw [List.drop_left, dropLit_self_append]
    simp [hsimp]
  · rename_i hne
    exact absurd rfl (hne _)

/-- C5 (amended): for every C-identifier `name` (nonempty, word
characters) and literal size `size` (nonempty, digits), the rewriter
replaces `float *name = calloc(size, sizeof(float));` by the stack
declaration `float name[size];` and replaces the deallocation
`free(name);` by the comment `// name auto-freed (VLA)`, counting one
replacement and one removed free; for such inputs no deallocation of
the rewritten buffer survives as executable code.  The original claim's
universal form is false: a deallocation written `free((name));` does
not match the `free\((\w+)\);` pattern and survives executably (see the
counterexample). -/
theorem transform_calloc_free_rewrite (name size : List Char)
    (h1 : name ≠ []) (h2 : ∀ c ∈ name, isWordChar c = true)
    (h3 : size ≠ []) (h4 : ∀ c ∈ size, isDigitChar c = true) :
    transform_calloc_to_vla
      ("float *".data ++ (name ++ (" = calloc(".data ++ (size ++
        (", sizeof(float));".data ++ ('\n' :: ("free(".data ++ (name ++ ");".data)))))))) =
      ("float ".data ++ (name ++ ('[' :: (size ++ ("];".data ++ ('\n' :: ("// ".data ++
        (name ++ " auto-freed (VLA)".data))))))), ⟨1, 1, [], 0⟩) := by
  have hsimp : simplify_expression size = size := simplify_expression_digits h4
  have hm1 := callocMatchAt_template h1 h2 h3 h4
    ('\n' :: ("free(".data ++ (name ++ ");".data)))
  rw [hsimp] at hm1
  have hrest1 : ∀ n, callocMatchAt
      (('\n' :: ("free(".data ++ (name ++ ");".data))).drop n) = none := by
    have hsp : ' ' ∉ ('\n' :: ("free(".data ++ (name ++ ");".data))) :=
      not_mem_cons2 (by decide) (not_mem_append2 (by decide)
        (not_mem_append2 (not_mem_word h2 (by decide)) (by decide)))
    intro n
    exact callocMatchAt_none_of_no_space (fun hm => hsp (List.drop_subset _ _ hm))
  have hrun1 : subScanSt callocMatchAt
      ("float *".data ++ (name ++ (" = calloc(".data ++ (size ++
        (", sizeof(float));".data ++
          ('\n' :: ("free(".data ++ (name ++ ");".data)))))))).length
      ⟨0, 0, [], 0⟩
      ("float *".data ++ (name ++ (" = calloc(".data ++ (size ++
        (", sizeof(float));".data ++
          ('\n' :: ("free(".data ++ (name ++ ");".data)))))))) =
      (("float ".data ++ name ++ '[' :: (size ++ "];".data)) ++
        ('\n' :: ("free(".data ++ (name ++ ");".data))), ⟨1, 0, [], 0⟩) :=
    subScanSt_run [] _ _ rfl (fun n hn => absurd hn (Nat.not_lt_zero n)) hm1 hrest1
      (Nat.succ_le_succ (Nat.zero_le _))
  have hshape2 : ("float ".data ++ name ++ '[' :: (size ++ "];".data)) ++
      ('\n' :: ("free(".data ++ (name ++ ");".data))) =
      (("float ".data ++ name ++ '[' :: (size ++ "];".data)) ++ ['\n']) ++
        ("free(".data ++ (name ++ ");".data)) := by
    conv_rhs => rw [List.append_assoc]
    rfl
  have hm2 : freeMatchAt ("free(".data ++ (name ++ ");".data)) =
      some ("// ".data ++ name ++ " auto-freed (VLA)".data, [],
        fun st => { st with frees_removed := st.frees_removed + 1 }) := by
    have h := freeMatchAt_template h1 h2 []
    rwa [List.append_nil] at h
  have hDnoLP : '(' ∉ (("float ".data ++ name ++ '[' :: (size ++ "];".data)) ++ ['\n']) :=
    not_mem_append2
      (not_mem_append2
        (not_mem_append2 (by decide) (not_mem_word h2 (by decide)))
        (not_mem_cons2 (by decide)
          (not_mem_append2 (not_mem_digit h4 (by decide)) (by decide))))
      (by decide)
  have hpre2 : ∀ n, n < ((("float ".data ++ name ++ '[' :: (size ++ "];".data)) ++
      ['\n']) : List Char).length →
      freeMatchAt ((((("float ".data ++ name ++ '[' :: (size ++ "];".data)) ++ ['\n']) ++
        ("free(".data ++ (name ++ ");".data)))).drop n) = none := by
    intro n hn
    rw [List.drop_append_of_le_length (Nat.le_of_lt hn)]
    unfold freeMatchAt
    rw [@dropLit_none_mid "free(".data
      (("float ".data ++ name ++ '[' :: (size ++ "];".data)) ++ ['\n'])
      ("free(".data ++ (name ++ ");".data)) n '(' 'f'
      ("ree(".data ++ (name ++ ");".data)) rfl (by decide) hDnoLP (by decide) hn]
  have hr2 : ∀ n, freeMatchAt (([] : List Char).drop n) = none := by
    intro n
    rw [List.drop_nil]
    rfl
  have hfuel2 : ((("float ".data ++ name ++ '[' :: (size ++ "];".data)) ++
      ['\n']) : List Char).length + 1 ≤
      (((("float ".data ++ name ++ '[' :: (size ++ "];".data)) ++ ['\n']) ++
        ("free(".data ++ (name ++ ");".data)))).length := by
    conv_rhs => rw [List.length_append]
    exact Nat.add_le_add_left (Nat.succ_le_succ (Nat.zero_le _)) _
  have hrun2 : subScanSt freeMatchAt
      (("float ".data ++ name ++ '[' :: (size ++ "];".data)) ++
        ('\n' :: ("free(".data ++ (name ++ ");".data)))).length
      ⟨1, 0, [], 0⟩
      (("float ".data ++ name ++ '[' :: (size ++ "];".data)) ++
        ('\n' :: ("free(".data ++ (name ++ ");".data)))) =
      ((("float ".data ++ name ++ '[' :: (size ++ "];".data)) ++ ['\n']) ++
        ("// ".data ++ name ++ " auto-freed (VLA)".data), ⟨1, 1, [], 0⟩) := by
    rw [hshape2]
    have h := subScanSt_run
      (("float ".data ++ name ++ '[' :: (size ++ "];".data)) ++ ['\n'])
      ((("float ".data ++ name ++ '[' :: (size ++ "];".data)) ++ ['\n']) ++
        ("free(".data ++ (name ++ ");".data))).length
      (⟨1, 0, [], 0⟩ : TransformStats)
      rfl hpre2 hm2 hr2 hfuel2
    rwa [List.append_nil] at h
  have hshape3 : (("float ".data ++ name ++ '[' :: (size ++ "];".data)) ++ ['\n']) ++
      ("// ".data ++ name ++ " auto-freed (VLA)".data) =
      "float ".data ++ (name ++ ('[' :: (size ++ ("];".data ++
        ('\n' :: ("// ".data ++ name ++ " auto-freed (VLA)".data)))))) := by
    simp only [List.append_assoc, List.cons_append, List.singleton_append, List.nil_append]
  have hm3 := vlaMatchAt_template h1 h2 h3 h4
    ('\n' :: ("// ".data ++ name ++ " auto-freed (VLA)".data))
  rw [hsimp] at hm3
  have hnoLB : '[' ∉ ('\n' :: ("// ".data ++ name ++ " auto-freed (VLA)".data)) :=
    not_mem_cons2 (by decide)
      (not_mem_append2
        (not_mem_append2 (by decide) (not_mem_word h2 (by decide)))
        (by decide))
  have hrest3 : ∀ n, vlaMatchAt
      (('\n' :: ("// ".data ++ name ++ " auto-freed (VLA)".data)).drop n) = none := by
    intro n
    exact vlaMatchAt_none_of_no_lbracket (fun hm => hnoLB (List.drop_subset _ _ hm))
  have hrun3 : subScanSt vlaMatchAt
      ((("float ".data ++ name ++ '[' :: (size ++ "];".data)) ++ ['\n']) ++
        ("// ".data ++ name ++ " auto-freed (VLA)".data)).length
      ⟨1, 1, [], 0⟩
      ((("float ".data ++ name ++ '[' :: (size ++ "];".data)) ++ ['\n']) ++
        ("// ".data ++ name ++ " auto-freed (VLA)".data)) =
      (("float ".data ++ name ++ '[' :: (size ++ "];".data)) ++
        ('\n' :: ("// ".data ++ name ++ " auto-freed (VLA)".data)), ⟨1, 1, [], 0⟩) := by
    rw [hshape3]
    exact subScanSt_run [] _ _ rfl (fun n hn => absurd hn (Nat.not_lt_zero n)) hm3 hrest3
      (Nat.succ_le_succ (Nat.zero_le _))
  have hlit : (" auto-freed (VLA)".data : List Char) =
      " auto-freed ".data ++ "(VLA)".data := rfl
  have hPQ : ("float ".data ++ name ++ '[' :: (size ++ "];".data)) ++
      ('\n' :: ("// ".data ++ name ++ " auto-freed (VLA)".data)) =
      ("float ".data ++ (name ++ ('[' :: (size ++ ("];".data ++
        ('\n' :: ("// ".data ++ (name ++ " auto-freed ".data)))))))) ++ "(VLA)".data := by
    rw [hlit]
    simp only [List.append_assoc, List.cons_append, List.singleton_append, List.nil_append]
  have hPnoLP : '(' ∉ ("float ".data ++ (name ++ ('[' :: (size ++ ("];".data ++
      ('\n' :: ("// ".data ++ (name ++ " auto-freed ".data)))))))) :=
    not_mem_append2 (by decide)
      (not_mem_append2 (not_mem_word h2 (by decide))
        (not_mem_cons2 (by decide)
          (not_mem_append2 (not_mem_digit h4 (by decide))
            (not_mem_append2 (by decide)
              (not_mem_cons2 (by decide)
                (not_mem_append2 (by decide)
                  (not_mem_append2 (not_mem_word h2 (by decide)) (by decide))))))))
  have h12m : NoMatchAnywhere (p12MatchAt '-')
      (("float ".data ++ name ++ '[' :: (size ++ "];".data)) ++
        ('\n' :: ("// ".data ++ name ++ " auto-freed (VLA)".data))) := by
    rw [hPQ]
    exact noMatchAnywhere_split
      (fun c t hc => p12MatchAt_none_of_head (fun he => hPnoLP (he ▸ hc)))
      (noMatchAnywhere_of_bounded (by decide))
  have h12p : NoMatchAnywhere (p12MatchAt '+')
      (("float ".data ++ name ++ '[' :: (size ++ "];".data)) ++
        ('\n' :: ("// ".data ++ name ++ " auto-freed (VLA)".data))) := by
    rw [hPQ]
    exact noMatchAnywhere_split
      (fun c t hc => p12MatchAt_none_of_head (fun he => hPnoLP (he ▸ hc)))
      (noMatchAnywhere_of_bounded (by decide))
  have hp3 : NoMatchAnywhere p3MatchAt
      (("float ".data ++ name ++ '[' :: (size ++ "];".data)) ++
        ('\n' :: ("// ".data ++ name ++ " auto-freed (VLA)".data))) := by
    rw [hPQ]
    exact noMatchAnywhere_split
      (fun c t hc => p3MatchAt_none_of_head (fun he => hPnoLP (he ▸ hc)))
      (noMatchAnywhere_of_bounded (by decide))
  have hpid : NoMatchAnywhere parenIdentMatchAt
      (("float ".data ++ name ++ '[' :: (size ++ "];".data)) ++
        ('\n' :: ("// ".data ++ name ++ " auto-freed (VLA)".data))) := by
    rw [hPQ]
    exact noMatchAnywhere_split
      (fun c t hc => parenIdentMatchAt_none_of_head (fun he => hPnoLP (he ▸ hc)))
      (noMatchAnywhere_of_bounded (by decide))
  have hlit2 : (" auto-freed (VLA)".data : List Char) =
      " auto".data ++ ('-' :: "freed (VLA)".data) := rfl
  have hsU : ("float ".data ++ name ++ '[' :: (size ++ "];".data)) ++
      ('\n' :: ("// ".data ++ name ++ " auto-freed (VLA)".data)) =
      ("float ".data ++ (name ++ ('[' :: (size ++ ("];".data ++
        ('\n' :: ("// ".data ++ (name ++ " auto".data)))))))) ++
        '-' :: "freed (VLA)".data := by
    rw [hlit2]
    simp only [List.append_assoc, List.cons_append, List.singleton_append, List.nil_append]
  have hUm : '-' ∉ ("float ".data ++ (name ++ ('[' :: (size ++ ("];".data ++
      ('\n' :: ("// ".data ++ (name ++ " auto".data)))))))) :=
    not_mem_append2 (by decide)
      (not_mem_append2 (not_mem_word h2 (by decide))
        (not_mem_cons2 (by decide)
          (not_mem_append2 (not_mem_digit h4 (by decide))
            (not_mem_append2 (by decide)
              (not_mem_cons2 (by decide)
                (not_mem_append2 (by decide)
                  (not_mem_append2 (not_mem_word h2 (by decide)) (by decide))))))))
  have hw0m : NoMatchAnywhere (wOp0MatchAt '-')
      (("float ".data ++ name ++ '[' :: (size ++ "];".data)) ++
        ('\n' :: ("// ".data ++ name ++ " auto-freed (VLA)".data))) :=
    wOp0_noMatch_of_unique hsU hUm (by decide) (fun r3 h => by
      have h2c : ('f' :: "reed (VLA)".data : List Char) = '0' :: r3 := h
      injection h2c with ha hb
      exact absurd ha (by decide))
  have hplus : '+' ∉ (("float ".data ++ name ++ '[' :: (size ++ "];".data)) ++
      ('\n' :: ("// ".data ++ name ++ " auto-freed (VLA)".data))) :=
    not_mem_append2
      (not_mem_append2
        (not_mem_append2 (by decide) (not_mem_word h2 (by decide)))
        (not_mem_cons2 (by decide)
          (not_mem_append2 (not_mem_digit h4 (by decide)) (by decide))))
      (not_mem_cons2 (by decide)
        (not_mem_append2
          (not_mem_append2 (by decide) (not_mem_word h2 (by decide)))
          (by decide)))
  have hw0p : NoMatchAnywhere (wOp0MatchAt '+')
      (("float ".data ++ name ++ '[' :: (size ++ "];".data)) ++
        ('\n' :: ("// ".data ++ name ++ " auto-freed (VLA)".data))) :=
    wOp0_noMatch_of_no_op hplus
  have hOnce : simplifyAllOnce
      (("float ".data ++ name ++ '[' :: (size ++ "];".data)) ++
        ('\n' :: ("// ".data ++ name ++ " auto-freed (VLA)".data))) =
      ("float ".data ++ name ++ '[' :: (size ++ "];".data)) ++
        ('\n' :: ("// ".data ++ name ++ " auto-freed (VLA)".data)) := by
    unfold simplifyAllOnce
    dsimp only
    rw [subScan_id h12m _, subScan_id h12p _, subScan_id hw0m _, subScan_id hw0p _,
      subScan_id hp3 _, subScan_id hpid _]
  have hsimpAll : simplify_all_expressions
      (("float ".data ++ name ++ '[' :: (size ++ "];".data)) ++
        ('\n' :: ("// ".data ++ name ++ " auto-freed (VLA)".data))) =
      ("float ".data ++ name ++ '[' :: (size ++ "];".data)) ++
        ('\n' :: ("// ".data ++ name ++ " auto-freed (VLA)".data)) := by
    show simplifyAllLoop 5
        (("float ".data ++ name ++ '[' :: (size ++ "];".data)) ++
          ('\n' :: ("// ".data ++ name ++ " auto-freed (VLA)".data))) = _
    rw [show simplifyAllLoop 5
        (("float ".data ++ name ++ '[' :: (size ++ "];".data)) ++
          ('\n' :: ("// ".data ++ name ++ " auto-freed (VLA)".data))) =
        (if simplifyAllOnce
            (("float ".data ++ name ++ '[' :: (size ++ "];".data)) ++
              ('\n' :: ("// ".data ++ name ++ " auto-freed (VLA)".data))) =
            ("float ".data ++ name ++ '[' :: (size ++ "];".data)) ++
              ('\n' :: ("// ".data ++ name ++ " auto-freed (VLA)".data))
         then simplifyAllOnce
            (("float ".data ++ name ++ '[' :: (size ++ "];".data)) ++
              ('\n' :: ("// ".data ++ name ++ " auto-freed (VLA)".data)))
         else simplifyAllLoop 4 (simplifyAllOnce
            (("float ".data ++ name ++ '[' :: (size ++ "];".data)) ++
              ('\n' :: ("// ".data ++ name ++ " auto-freed (VLA)".data))))) from rfl]
    rw [hOnce, if_pos rfl]
  have hshape4 : ("float ".data ++ name ++ '[' :: (size ++ "];".data)) ++
      ('\n' :: ("// ".data ++ name ++ " auto-freed (VLA)".data)) =
      "float ".data ++ (name ++ ('[' :: (size ++ ("];".data ++ ('\n' :: ("// ".data ++
        (name ++ " auto-freed (VLA)".data))))))) := by
    simp only [List.append_assoc, List.cons_append, List.singleton_append, List.nil_append]
  simp only [transform_calloc_to_vla]
  rw [hrun1]
  dsimp only
  rw [hrun2]
  dsimp only
  rw [hrun3]
  dsimp only
  rw [hsimpAll, hshape4]

theorem transform_calloc_free_rewrite_witness :
    transform_calloc_to_vla
      ("float *".data ++ ("buf".data ++ (" = calloc(".data ++ ("25".data ++
        (", sizeof(float));".data ++
          ('\n' :: ("free(".data ++ ("buf".data ++ ");".data)))))))) =
      ("float ".data ++ ("buf".data ++ ('[' :: ("25".data ++ ("];".data ++
        ('\n' :: ("// ".data ++ ("buf".data ++ " auto-freed (VLA)".data))))))),
        ⟨1, 1, [], 0⟩) :=
  transform_calloc_free_rewrite "buf".data "25".data (by decide) (by decide)
    (by decide) (by decide)

/-- C7: if the number of supplied scalar arguments differs from the
number of scalar parameters (parameters whose type does not end in
`*`), the wrapper generation fails with exit code 1 before any wrapper
is generated, and no output is written. -/
theorem main_int_count_mismatch_no_output (fname : List Char)
    (params : List (List Char × List Char)) (source : List Char)
    (int_args : List Int) (array_args : List (List PyFloat))
    (output_size : Int) (inline : Bool)
    (h : int_args.length ≠ (params.filter (fun p => !endsWithStar p.1)).length) :
    mainModel fname params source int_args array_args output_size inline = (1, none) := by
  unfold mainModel
  rw [if_pos h]

theorem main_int_count_mismatch_no_output_witness :
    mainModel "f".data [("int".data, "n".data)] [] [] [] 4 true = (1, none) :=
  main_int_count_mismatch_no_output "f".data [("int".data, "n".data)] [] [] [] 4 true
    (by decide)

theorem callArgsAux_append (int_args : List Int) :
    ∀ (P Q : List (List Char × List Char)) (idx : Nat),
    callArgsAux int_args (P ++ Q) idx =
      callArgsAux int_args P idx ++ callArgsAux int_args Q (nextIdx int_args.length P idx)
  | [], Q, idx => by simp [callArgsAux, nextIdx]
  | (t, n) :: rest, Q, idx => by
    cases ht : endsWithStar t with
    | true =>
      simp only [List.cons_append, callArgsAux, nextIdx, ht, if_true, List.append_eq]
      rw [callArgsAux_append int_args rest Q idx]
    | false =>
      by_cases hi : idx < int_args.length
      · simp only [List.cons_append, callArgsAux, nextIdx, ht, Bool.false_eq_true,
          if_false, hi, if_true, List.append_eq]
        rw [callArgsAux_append int_args rest Q (idx + 1)]
      · simp only [List.cons_append, callArgsAux, nextIdx, ht, Bool.false_eq_true,
          if_false, hi, List.append_eq]
        exact callArgsAux_append int_args rest Q idx

/-- C10: in every generated wrapper program the synthesized output
buffer is declared under the fixed identifier `output` as
`    float output[output_size] = {0};`, and every pointer parameter
whose name contains the case-insensitive substring `output` is passed
as the literal identifier `output` in the call-argument list,
regardless of the parameter's declared name; when a call is emitted
(the non-inline path), that argument list appears verbatim at the call
site. -/
theorem generate_output_identifier (fname : List Char)
    (pre post : List (List Char × List Char)) (t n : List Char)
    (source : List Char) (int_args : List Int) (array_args : List (List PyFloat))
    (output_size : Int)
    (ht : endsWithStar t = true)
    (hn : containsSub "output".data (pyLower n) = true) :
    (∀ inline : Bool,
      ("    float output[".data ++ intToChars output_size ++ "] = \x7b0\x7d;".data) ∈
        generateLines fname (pre ++ (t, n) :: post) source int_args array_args
          output_size inline) ∧
    callArgsAux int_args (pre ++ (t, n) :: post) 0 =
      callArgsAux int_args pre 0 ++
        "output".data :: callArgsAux int_args post (nextIdx int_args.length pre 0) ∧
    ("    ".data ++ fname ++ "(".data ++
        joinSep ", ".data (callArgsAux int_args (pre ++ (t, n) :: post) 0) ++ ");".data) ∈
      generateLines fname (pre ++ (t, n) :: post) source int_args array_args
        output_size false := by
  refine ⟨?_, ?_, ?_⟩
  · intro inline
    unfold generateLines
    refine List.mem_append_right _ ?_
    refine List.mem_cons_of_mem _ (List.mem_cons_of_mem _ (List.mem_cons_of_mem _ ?_))
    refine List.mem_append_right _ ?_
    exact List.mem_cons_self _ _
  · rw [callArgsAux_append]
    congr 1
    simp [callArgsAux, ht, hn]
  · unfold generateLines
    refine List.mem_append_right _ ?_
    refine List.mem_cons_of_mem _ (List.mem_cons_of_mem _ (List.mem_cons_of_mem _ ?_))
    refine List.mem_append_right _ ?_
    refine List.mem_cons_of_mem _ (List.mem_cons_of_mem _ ?_)
    refine List.mem_append_left _ ?_
    unfold middleLines
    simp only [Bool.false_eq_true, if_false]
    exact List.mem_cons_self _ _

theorem generate_output_identifier_witness :
    callArgsAux [(3 : Int)]
      (([] : List (List Char × List Char)) ++
        ("float*".data, "OutputArr".data) :: [("int".data, "n".data)]) 0 =
      callArgsAux [(3 : Int)] [] 0 ++
        "output".data :: callArgsAux [(3 : Int)] [("int".data, "n".data)]
          (nextIdx (1 : Nat) [] 0) :=
  (generate_output_identifier "f".data [] [("int".data, "n".data)]
    "float*".data "OutputArr".data [] [(3 : Int)] [] 7 (by decide) (by decide)).2.1
